import Mathlib

/-!
A verification development for the knowledge-base ETL pipeline
(`backend/app/services/etl_pipeline.py`).  The Python code is shallowly
embedded: texts are `List Char` (Python strings are sequences of code
points), raw files are `List Nat` (byte values), machine-external services
(blob store, embedding service, vector index search) are explicit oracle
parameters, and the mutable database session is threaded as an explicit
state value.
-/

set_option maxRecDepth 100000

namespace Etl

/-! ## Python string primitives (over `List Char`) -/

/-- Python whitespace characters recognised by `str.strip()` (ASCII subset;
the texts manipulated by the pipeline are ordinary text). -/
def isPyWhitespace (c : Char) : Bool :=
  c == ' ' || c == '\t' || c == '\n' || c == '\r' || c == '\x0b' || c == '\x0c'

/-- Python `s.strip()`: remove leading and trailing whitespace. -/
def pyStrip (s : List Char) : List Char :=
  ((s.dropWhile isPyWhitespace).reverse.dropWhile isPyWhitespace).reverse

/-- Greatest element of a list of naturals, `none` on the empty list. -/
def listMaxNat : List Nat → Option Nat
  | [] => none
  | x :: xs =>
    match listMaxNat xs with
    | none => some x
    | some m => some (max x m)

/-- Python `s.rfind(pat)` restricted to a non-empty pattern: the greatest
index at which `pat` occurs in `s`, or `none` (Python's `-1`). -/
def pyRfind (s pat : List Char) : Option Nat :=
  listMaxNat ((List.range s.length).filter (fun i => pat.isPrefixOf (s.drop i)))

/-! ## The chunker (`ETLPipeline._chunk_text`)

`self.chunk_size = 1000`, `self.overlap = 200`. -/

def chunk_size : Nat := 1000

def overlap : Nat := 200

/-- One iteration of the `while start < len(text)` loop of `_chunk_text`:
given the window start, produce the (unstripped) chunk together with the
`end` index used for the next iteration (`start` then advances to
`end - overlap`).

```
end = start + self.chunk_size
chunk = text[start:end]
if end < len(text):
    last_period = chunk.rfind('. ')
    if last_period > self.chunk_size * 0.7:
        end = start + last_period + 1
        chunk = text[start:end]
```
-/
def chunkStep (text : List Char) (start : Nat) : List Char × Nat :=
  let endIdx := start + chunk_size
  let chunk := (text.drop start).take chunk_size
  if endIdx < text.length then
    match pyRfind chunk ['.', ' '] with
    | some lastPeriod =>
      if 700 < lastPeriod then
        ((text.drop start).take (lastPeriod + 1), start + lastPeriod + 1)
      else (chunk, endIdx)
    | none => (chunk, endIdx)
  else (chunk, endIdx)

theorem chunkStep_snd_lower (text : List Char) (start : Nat) :
    start + 702 ≤ (chunkStep text start).2 := by
  unfold chunkStep chunk_size
  dsimp only
  split
  · split
    · split
      · omega
      · omega
    · omega
  · omega

/-- The `while start < len(text)` loop of `_chunk_text`, collecting
`chunk.strip()` for each iteration.  The recursion is bounded by an
explicit fuel counter so that the definition is structurally recursive
(and hence evaluable inside the kernel); `chunkText` supplies
`text.length + 1` fuel, which can never run out because each iteration
advances `start` by at least `702 - 200 = 502` characters
(`chunkStep_snd_lower`), so the loop performs at most
`text.length / 502 + 1` iterations. -/
def chunkLoop (text : List Char) : Nat → Nat → List (List Char)
  | 0, _ => []
  | fuel + 1, start =>
    if start < text.length then
      let p := chunkStep text start
      pyStrip p.1 :: chunkLoop text fuel (p.2 - overlap)
    else []

/-- `ETLPipeline._chunk_text`: return the text whole when it fits in one
window, otherwise run the loop and drop falsy (empty) chunks. -/
def chunkText (text : List Char) : List (List Char) :=
  if text.length ≤ chunk_size then [text]
  else (chunkLoop text (text.length + 1) 0).filter (fun c => !c.isEmpty)

example : chunkText "hello world".data = ["hello world".data] := by decide

example : chunkText [] = [[]] := by decide

/-! ## SHA-256 over byte lists

`hashlib.sha256` is used by the pipeline both for the content fingerprint
of a raw file and for the derivation of deterministic vector point ids;
it is embedded here in full.  Bytes are naturals below 256, 32-bit words
are naturals reduced modulo `2 ^ 32`. -/

/-- Truncate to a 32-bit word. -/
def w32 (x : Nat) : Nat := x % 4294967296

/-- Right rotation of a 32-bit word. -/
def rotr (n x : Nat) : Nat := w32 ((x >>> n) ||| (x <<< (32 - n)))

/-- The 64 SHA-256 round constants (decimal). -/
def sha256K : List Nat :=
  [1116352408, 1899447441, 3049323471, 3921009573, 961987163,
   1508970993, 2453635748, 2870763221, 3624381080, 310598401,
   607225278, 1426881987, 1925078388, 2162078206, 2614888103,
   3248222580, 3835390401, 4022224774, 264347078, 604807628,
   770255983, 1249150122, 1555081692, 1996064986, 2554220882,
   2821834349, 2952996808, 3210313671, 3336571891, 3584528711,
   113926993, 338241895, 666307205, 773529912, 1294757372,
   1396182291, 1695183700, 1986661051, 2177026350, 2456956037,
   2730485921, 2820302411, 3259730800, 3345764771, 3516065817,
   3600352804, 4094571909, 275423344, 430227734, 506948616,
   659060556, 883997877, 958139571, 1322822218, 1537002063,
   1747873779, 1955562222, 2024104815, 2227730452, 2361852424,
   2428436474, 2756734187, 3204031479, 3329325298]

/-- The initial SHA-256 hash state (decimal). -/
def sha256H0 : List Nat :=
  [1779033703, 3144134277, 1013904242, 2773480762, 1359893119,
   2600822924, 528734635, 1541459225]

/-- `n` bytes of `x`, big-endian. -/
def bytesBE (n : Nat) (x : Nat) : List Nat :=
  (List.range n).map (fun i => (x >>> (8 * (n - 1 - i))) % 256)

/-- SHA-256 message padding: `0x80`, zeros to 56 mod 64, then the bit
length as 8 big-endian bytes. -/
def sha256Pad (msg : List Nat) : List Nat :=
  let padZeros := (119 - msg.length % 64) % 64
  msg ++ 0x80 :: List.replicate padZeros 0 ++ bytesBE 8 (msg.length * 8)

/-- Group a byte list into big-endian 32-bit words. -/
def toWords : List Nat → List Nat
  | a :: b :: c :: d :: rest => (a * 16777216 + b * 65536 + c * 256 + d) :: toWords rest
  | _ => []

/-- Extend the 16-word message schedule to 64 words.  The loop adds one
word per iteration and stops at 64, so 64 units of fuel always suffice;
fuel keeps the recursion structural. -/
def sha256ExtendAux : Nat → List Nat → List Nat
  | 0, w => w
  | fuel + 1, w =>
    if 64 ≤ w.length then w
    else
      let i := w.length
      let x15 := w.getD (i - 15) 0
      let x2 := w.getD (i - 2) 0
      let s0 := w32 (rotr 7 x15 ^^^ rotr 18 x15 ^^^ (x15 >>> 3))
      let s1 := w32 (rotr 17 x2 ^^^ rotr 19 x2 ^^^ (x2 >>> 10))
      sha256ExtendAux fuel (w ++ [w32 (w.getD (i - 16) 0 + s0 + w.getD (i - 7) 0 + s1)])

/-- Extend the 16-word message schedule to 64 words. -/
def sha256Extend (w : List Nat) : List Nat := sha256ExtendAux 64 w

/-- One SHA-256 compression round. -/
def sha256Round (k wi : Nat)
    (st : Nat × Nat × Nat × Nat × Nat × Nat × Nat × Nat) :
    Nat × Nat × Nat × Nat × Nat × Nat × Nat × Nat :=
  let (a, b, c, d, e, f, g, hh) := st
  let S1 := w32 (rotr 6 e ^^^ rotr 11 e ^^^ rotr 25 e)
  let ch := w32 ((e &&& f) ^^^ ((e ^^^ 4294967295) &&& g))
  let temp1 := w32 (hh + S1 + ch + k + wi)
  let S0 := w32 (rotr 2 a ^^^ rotr 13 a ^^^ rotr 22 a)
  let maj := w32 ((a &&& b) ^^^ (a &&& c) ^^^ (b &&& c))
  let temp2 := w32 (S0 + maj)
  (w32 (temp1 + temp2), a, b, c, w32 (d + temp1), e, f, g)

/-- Compress one 64-byte block into the running hash state. -/
def sha256Block (hs : List Nat) (block : List Nat) : List Nat :=
  let w := sha256Extend (toWords block)
  let init := (hs.getD 0 0, hs.getD 1 0, hs.getD 2 0, hs.getD 3 0,
               hs.getD 4 0, hs.getD 5 0, hs.getD 6 0, hs.getD 7 0)
  let fin := (List.range 64).foldl
    (fun st i => sha256Round (sha256K.getD i 0) (w.getD i 0) st) init
  let (a, b, c, d, e, f, g, hh) := fin
  [w32 (hs.getD 0 0 + a), w32 (hs.getD 1 0 + b), w32 (hs.getD 2 0 + c),
   w32 (hs.getD 3 0 + d), w32 (hs.getD 4 0 + e), w32 (hs.getD 5 0 + f),
   w32 (hs.getD 6 0 + g), w32 (hs.getD 7 0 + hh)]

/-- Split a byte list into 64-byte blocks; each iteration consumes 64
bytes, so `l.length` units of fuel always suffice (fuel keeps the
recursion structural). -/
def chunks64Aux : Nat → List Nat → List (List Nat)
  | 0, _ => []
  | fuel + 1, l =>
    if l = [] then [] else l.take 64 :: chunks64Aux fuel (l.drop 64)

/-- Split a byte list into 64-byte blocks. -/
def chunks64 (l : List Nat) : List (List Nat) := chunks64Aux l.length l

/-- `hashlib.sha256(msg).digest()` as a list of 32 bytes. -/
def sha256 (msg : List Nat) : List Nat :=
  ((chunks64 (sha256Pad msg)).foldl sha256Block sha256H0).map (bytesBE 4) |>.flatten

example : (sha256 ("abc".data.map Char.toNat)).take 4 = [0xba, 0x78, 0x16, 0xbf] := by decide

/-! ## Further Python primitives used by the pipeline -/

/-- Python `str.lower()` (ASCII). -/
def pyLower (s : List Char) : List Char := s.map Char.toLower

/-- Python `pat in s` (substring containment). -/
def containsSub (s pat : List Char) : Bool :=
  (List.range (s.length + 1)).any (fun i => pat.isPrefixOf (s.drop i))

/-- UTF-8 encoding of one character (Python `str.encode()`). -/
def utf8Encode (c : Char) : List Nat :=
  let n := c.toNat
  if n < 128 then [n]
  else if n < 2048 then [192 + n / 64, 128 + n % 64]
  else if n < 65536 then [224 + n / 4096, 128 + (n / 64) % 64, 128 + n % 64]
  else [240 + n / 262144, 128 + (n / 4096) % 64, 128 + (n / 64) % 64, 128 + n % 64]

/-- Python `s.encode()`: UTF-8 bytes of a string. -/
def utf8Bytes (s : String) : List Nat := s.data.flatMap utf8Encode

/-! ## Data model

`app/models.py`: `KnowledgeBaseDocument`, `DocumentProcessingJob`,
`PendingKBUpdate`; plus the two Qdrant collections.  Timestamps carry no
information relevant to the claims and are omitted.  Primary keys are
UUIDs in the source; they are modelled as naturals allocated from a
session-level counter (`next_id`), which preserves exactly what the code
relies on: freshness and identity. -/

/-- One structured案 record produced by `parse_case_study_from_ppt`. -/
structure CaseStudyRecord where
  client_name : String
  overview : String
  solution : String
  impact : String
  slide_range : String
  full_text : List Char
deriving Repr, DecidableEq

structure KnowledgeBaseDocument where
  id : Nat
  file_name : String
  blob_path : String
  file_hash : List Nat
  file_size : Nat
  document_type : String
  /-- `json.dumps` of the record's fields; modelled as the record itself. -/
  case_study_metadata : Option CaseStudyRecord
  is_vectorized : Bool
  vector_count : Nat
  qdrant_point_ids : List Nat
deriving Repr, DecidableEq

/-- An entry of the `related_documents` JSON list of a pending update. -/
structure SimilarDoc where
  document_id : Nat
  file_name : String
  similarity_score : ℚ
  blob_path : String
deriving Repr, DecidableEq

structure PendingKBUpdate where
  id : Nat
  new_document_id : Nat
  related_documents : List SimilarDoc
  update_type : String
  similarity_score : ℚ
  status : String
  reviewed_by : Option String
  admin_comment : Option String
deriving Repr, DecidableEq

structure DocumentProcessingJob where
  document_id : Nat
  status : String
  chunks_processed : Nat
  vectors_created : Nat
  error_message : Option String
deriving Repr, DecidableEq

/-- One stored vector point; the payload fields not used by any claim
(file name, content preview, timestamps) are omitted. -/
structure VPoint where
  pid : Nat
  document_id : Nat
  chunk_index : Nat
deriving Repr, DecidableEq

def QDRANT_COLLECTION : String := "knowledge_chunks"

def CASE_STUDY_COLLECTION : String := "case_studies"

/-- The vector index: two logical collections. -/
structure QdrantState where
  general : List VPoint
  case_studies : List VPoint
deriving Repr, DecidableEq

def getColl (q : QdrantState) (cname : String) : List VPoint :=
  if cname == CASE_STUDY_COLLECTION then q.case_studies else q.general

def setColl (q : QdrantState) (cname : String) (pts : List VPoint) : QdrantState :=
  if cname == CASE_STUDY_COLLECTION then { q with case_studies := pts } else { q with general := pts }

/-- The database session plus the vector index. -/
structure EtlState where
  docs : List KnowledgeBaseDocument
  pendings : List PendingKBUpdate
  jobs : List DocumentProcessingJob
  qdrant : QdrantState
  next_id : Nat
deriving Repr, DecidableEq

/-- The scan statistics dictionary. -/
structure Stats where
  scanned : Nat
  new : Nat
  updated : Nat
  failed : Nat
  pending_approval : Nat
deriving Repr, DecidableEq

/-- Observable external actions, recorded in order. -/
inductive EtlEvent where
  | searchIndex (collection : String)
  | upsertPoints (collection : String) (docId : Nat) (pids : List Nat)
  | deleteVectors (collection : String) (docId : Nat)
  | deleteDocRow (docId : Nat)
  | createPending (docId : Nat)
deriving Repr, DecidableEq

/-- A hit returned by the vector index `search` call: the payload's
`document_id` (if present) and the similarity score. -/
structure Hit where
  document_id : Option Nat
  score : ℚ
deriving Repr, DecidableEq

/-- A listed blob-storage file. -/
structure FileInfo where
  path : String
  name : String
deriving Repr, DecidableEq

/-- The pipeline's external collaborators, as oracle functions: the blob
store (`azure_blob.download_bytes`), the text extractors, the structured
case-study parser, the embedding service and the vector-index search
(embedding of the sample plus the `score_threshold`-filtered query are
fused into one function; an embedding failure is a `[]` result).  The
search oracle receives the collection name the code passes. -/
structure Oracles where
  download : String → Option (List Nat)
  extract : List Nat → String → List Char
  extract_ppt : List Nat → List Char
  parse_ppt : List Nat → List CaseStudyRecord
  embed : List (List Char) → List (List ℚ)
  search : String → List Char → List Hit

/-! ## Pipeline operations (`ETLPipeline`) -/

/-- `self.similarity_threshold = 0.85`. -/
def similarity_threshold : ℚ := mkRat 85 100

/-- `_is_case_study_document`. -/
def isCaseStudyDocument (blob_path file_name : String) : Bool :=
  let pathLower := pyLower blob_path.data
  let nameLower := pyLower file_name.data
  (containsSub pathLower "case_study".data || containsSub pathLower "case study".data ||
    containsSub pathLower "casestudy".data) ||
  (containsSub nameLower "case_study".data || containsSub nameLower "case study".data ||
    containsSub nameLower "casestudy".data || containsSub nameLower "client_story".data) ||
  ("cs_".data.isPrefixOf nameLower || "case_".data.isPrefixOf nameLower)

/-- Is there an open (`pending`) approval for this document?  (The query
at the start of the reprocessing branch of `_process_single_document`.) -/
def hasOpenPending (st : EtlState) (docId : Nat) : Bool :=
  st.pendings.any (fun p => p.new_document_id == docId && p.status == "pending")

/-- Replace the row with `d.id` by `d` (the ORM mutating a loaded row). -/
def updateDocs (docs : List KnowledgeBaseDocument) (d : KnowledgeBaseDocument) :
    List KnowledgeBaseDocument :=
  docs.map (fun x => if x.id == d.id then d else x)

/-- The stable integer point id of `_vectorize_and_store`:
`int(hashlib.sha256(f"{doc.id}_{idx}".encode()).hexdigest()[:16], 16)`,
i.e. the first 8 bytes of the SHA-256 digest read big-endian. -/
def pointIdFor (docId : Nat) (idx : Nat) : Nat :=
  ((sha256 (utf8Bytes (toString docId ++ "_" ++ toString idx))).take 8).foldl
    (fun a b => a * 256 + b) 0

/-- Qdrant `upsert`: points whose id already exists are overwritten,
fresh ids are added. -/
def upsertPointList (coll : List VPoint) (pts : List VPoint) : List VPoint :=
  coll.filter (fun p => pts.all (fun q => q.pid != p.pid)) ++ pts

/-- `_find_similar_documents` minus the index round-trip: resolve the
returned hits against the metadata store, dropping hits without a
`document_id`, hits referring to the candidate itself and hits whose
document row no longer exists.  The search is always issued against
`QDRANT_COLLECTION` (see the `NOTE` in the source: the KB collection
only). -/
def resolveHits (docs : List KnowledgeBaseDocument) (hits : List Hit) (excludeId : Nat) :
    List SimilarDoc :=
  hits.filterMap (fun h =>
    match h.document_id with
    | none => none
    | some d =>
      if d != excludeId then
        match docs.find? (fun doc => doc.id == d) with
        | some doc => some ⟨doc.id, doc.file_name, h.score, doc.blob_path⟩
        | none => none
      else none)

/-- `_find_similar_documents`: embed the first 2000 characters and query
the KB collection, then resolve the hits.  Also returns the probe event. -/
def findSimilar (O : Oracles) (docs : List KnowledgeBaseDocument) (text : List Char)
    (excludeId : Nat) : List SimilarDoc × List EtlEvent :=
  let sample := text.take 2000
  let hits := O.search QDRANT_COLLECTION sample
  (resolveHits docs hits excludeId, [.searchIndex QDRANT_COLLECTION])

/-- Python `max()` over the similarity scores of a non-empty list
(junk value `0` on `[]`, where the source would raise). -/
def maxScore : List SimilarDoc → ℚ
  | [] => mkRat 0 1
  | d :: ds => ds.foldl (fun a x => if a < x.similarity_score then x.similarity_score else a)
      d.similarity_score

/-- `_create_pending_approval`. -/
def createPendingApproval (st : EtlState) (doc : KnowledgeBaseDocument)
    (similar : List SimilarDoc) : EtlState × List EtlEvent :=
  let maxSim := maxScore similar
  let updateType :=
    if maxSim > mkRat 95 100 then "duplicate"
    else if maxSim > similarity_threshold then "update"
    else "new"
  let p : PendingKBUpdate :=
    { id := st.next_id, new_document_id := doc.id, related_documents := similar,
      update_type := updateType, similarity_score := maxSim, status := "pending",
      reviewed_by := none, admin_comment := none }
  ({ st with pendings := st.pendings ++ [p], next_id := st.next_id + 1 },
   [.createPending doc.id])

/-- Result of `_vectorize_and_store`; `success = false` models the raised
exception (the session keeps the mutations made before the raise: the
failed job row). -/
structure VecResult where
  st : EtlState
  success : Bool
  events : List EtlEvent
deriving Repr

/-- `_vectorize_and_store`: create a processing job, chunk, embed
(the batch must return one vector per chunk), build points with
deterministic ids, upsert into the collection matching the document's
category, and mark document and job accordingly.  The job row is
appended with its final status. -/
def vectorizeAndStore (O : Oracles) (st : EtlState) (doc : KnowledgeBaseDocument)
    (text : List Char) : VecResult :=
  let chunks := chunkText text
  let embeddings := O.embed chunks
  if embeddings.isEmpty || embeddings.length != chunks.length then
    let job : DocumentProcessingJob :=
      { document_id := doc.id, status := "failed", chunks_processed := chunks.length,
        vectors_created := 0, error_message := some "Embedding count mismatch" }
    ⟨{ st with jobs := st.jobs ++ [job] }, false, []⟩
  else
    let n := chunks.length
    let pids := (List.range n).map (pointIdFor doc.id)
    let pts := (List.range n).map (fun idx => VPoint.mk (pointIdFor doc.id idx) doc.id idx)
    let cname := if doc.document_type == "case_study" then CASE_STUDY_COLLECTION else QDRANT_COLLECTION
    let doc' := { doc with is_vectorized := true, vector_count := n, qdrant_point_ids := pids }
    let job : DocumentProcessingJob :=
      { document_id := doc.id, status := "completed", chunks_processed := n,
        vectors_created := n, error_message := none }
    ⟨{ st with docs := updateDocs st.docs doc',
               jobs := st.jobs ++ [job],
               qdrant := setColl st.qdrant cname (upsertPointList (getColl st.qdrant cname) pts) },
     true, [.upsertPoints cname doc.id pids]⟩

/-- Result of `_process_single_document`; `raised = true` models an
exception propagating to the scan loop (which then counts the document
as failed), with all session mutations made before the raise kept. -/
structure ProcResult where
  st : EtlState
  stats : Stats
  events : List EtlEvent
  raised : Bool
deriving Repr

/-- Outcome of the admission-decision ladder at the top of
`_process_single_document` (everything before text extraction). -/
inductive Classify where
  | skip
  | proceed (st : EtlState) (stats : Stats) (doc : KnowledgeBaseDocument)

/-- The admission-decision ladder: unseen / unchanged-vectorized /
unchanged-with-open-approval / unchanged-unvectorized / changed. -/
def classifyDocument (st : EtlState) (stats : Stats) (path name : String)
    (fhash : List Nat) (fsize : Nat) : Classify :=
  match st.docs.find? (fun d => d.blob_path == path) with
  | some existing =>
    if existing.file_hash == fhash then
      if existing.is_vectorized then .skip
      else if hasOpenPending st existing.id then .skip
      else .proceed st { stats with updated := stats.updated + 1 } existing
    else
      let doc := { existing with file_hash := fhash, file_size := fsize, is_vectorized := false }
      .proceed { st with docs := updateDocs st.docs doc }
        { stats with updated := stats.updated + 1 } doc
  | none =>
    let docType := if isCaseStudyDocument path name then "case_study" else "general"
    let doc : KnowledgeBaseDocument :=
      { id := st.next_id, file_name := name, blob_path := path, file_hash := fhash,
        file_size := fsize, document_type := docType, case_study_metadata := none,
        is_vectorized := false, vector_count := 0, qdrant_point_ids := [] }
    .proceed { st with docs := st.docs ++ [doc], next_id := st.next_id + 1 }
      { stats with new := stats.new + 1 } doc

/-- The tail of `_process_single_document` shared by general documents
and by case-study files that were not structurally parsed: skip
undersized text, probe for similar documents, then either open a pending
approval or vectorize directly. -/
def standardTail (O : Oracles) (st : EtlState) (stats : Stats)
    (doc : KnowledgeBaseDocument) (text : List Char) : ProcResult :=
  if text.isEmpty || (pyStrip text).length < 50 then ⟨st, stats, [], false⟩
  else
    let pr := findSimilar O st.docs text doc.id
    if pr.1.isEmpty then
      let v := vectorizeAndStore O st doc text
      ⟨v.st, stats, pr.2 ++ v.events, !v.success⟩
    else
      let c := createPendingApproval st doc pr.1
      ⟨c.1, { stats with pending_approval := stats.pending_approval + 1 },
       pr.2 ++ c.2, false⟩

/-- The synthetic blob path of the `k`-th case-study record of a source
file (`f"{blob_path}#case_study_{idx + 1}"`). -/
def caseStudyPath (basePath : String) (k : Nat) : String :=
  basePath ++ "#case_study_" ++ toString k

/-- Locate or create the document row for the record at `idx` inside the
multi-record loop (`idx = 0` reuses the row classified for the source
file itself). -/
def prepareCaseDoc (st : EtlState) (f : FileInfo) (fhash : List Nat) (fsize : Nat)
    (doc0 : KnowledgeBaseDocument) (r : CaseStudyRecord) (idx : Nat) :
    EtlState × KnowledgeBaseDocument :=
  if idx == 0 then (st, doc0)
  else
    let csPath := caseStudyPath f.path (idx + 1)
    match st.docs.find? (fun d => d.blob_path == csPath) with
    | some ex =>
      let d := { ex with file_hash := fhash, file_size := fsize, is_vectorized := false }
      ({ st with docs := updateDocs st.docs d }, d)
    | none =>
      let d : KnowledgeBaseDocument :=
        { id := st.next_id, file_name := f.name ++ " - " ++ r.client_name,
          blob_path := csPath, file_hash := fhash, file_size := fsize,
          document_type := "case_study", case_study_metadata := none,
          is_vectorized := false, vector_count := 0, qdrant_point_ids := [] }
      ({ st with docs := st.docs ++ [d], next_id := st.next_id + 1 }, d)

/-- The `for idx, case_study in enumerate(case_studies)` loop: store the
record's metadata on its document row and vectorize it when its text is
substantial; a vectorization error propagates immediately (third
component `true`), skipping the remaining records and the orphan
cleanup. -/
def processCaseStudyList (O : Oracles) (f : FileInfo) (fhash : List Nat) (fsize : Nat)
    (doc0 : KnowledgeBaseDocument) :
    EtlState → List CaseStudyRecord → Nat → EtlState × List EtlEvent × Bool
  | st, [], _ => (st, [], false)
  | st, r :: rs, idx =>
    let p := prepareCaseDoc st f fhash fsize doc0 r idx
    let d := { p.2 with case_study_metadata := some r }
    let st1 := { p.1 with docs := updateDocs p.1.docs d }
    if 50 ≤ (pyStrip r.full_text).length then
      let v := vectorizeAndStore O st1 d r.full_text
      if v.success then
        let rest := processCaseStudyList O f fhash fsize doc0 v.st rs (idx + 1)
        (rest.1, v.events ++ rest.2.1, rest.2.2)
      else (v.st, v.events, true)
    else
      let rest := processCaseStudyList O f fhash fsize doc0 st1 rs (idx + 1)
      (rest.1, rest.2.1, rest.2.2)

/-- The `while True` orphan-cleanup loop: for `k = len(case_studies)+1`,
`len+2`, … look up the synthetic path, delete the orphan's vectors from
the case-study collection and then its metadata row, stopping at the
first index with no row.  The loop terminates because each iteration
deletes a row, so `st.docs.length + 1` units of fuel can never run out;
fuel keeps the recursion structural.  Deleting the row cascades to its
processing jobs and pending updates (`ondelete="CASCADE"`). -/
def orphanLoop (basePath : String) : Nat → EtlState → Nat → EtlState × List EtlEvent
  | 0, st, _ => (st, [])
  | fuel + 1, st, k =>
    match st.docs.find? (fun d => d.blob_path == caseStudyPath basePath k) with
    | some orphan =>
      let st' : EtlState :=
        { st with
          qdrant := setColl st.qdrant CASE_STUDY_COLLECTION
            ((getColl st.qdrant CASE_STUDY_COLLECTION).filter
              (fun p => p.document_id != orphan.id)),
          docs := st.docs.filter (fun d => d.id != orphan.id),
          jobs := st.jobs.filter (fun j => j.document_id != orphan.id),
          pendings := st.pendings.filter (fun p => p.new_document_id != orphan.id) }
      let rest := orphanLoop basePath fuel st' (k + 1)
      (rest.1, .deleteVectors CASE_STUDY_COLLECTION orphan.id :: .deleteDocRow orphan.id :: rest.2)
    | none => (st, [])

/-- The structured case-study branch of `_process_single_document`:
process every parsed record, then reconcile orphaned synthetic rows. -/
def caseStudyBranch (O : Oracles) (f : FileInfo) (fhash : List Nat) (fsize : Nat)
    (st : EtlState) (stats : Stats) (doc : KnowledgeBaseDocument)
    (records : List CaseStudyRecord) : ProcResult :=
  let r := processCaseStudyList O f fhash fsize doc st records 0
  if r.2.2 then ⟨r.1, stats, r.2.1, true⟩
  else
    let c := orphanLoop f.path (r.1.docs.length + 1) r.1 (records.length + 1)
    ⟨c.1, stats, r.2.1 ++ c.2, false⟩

/-- Does the (lower-cased) file name end in `.ppt` or `.pptx`? -/
def isPptName (name : String) : Bool :=
  ".ppt".data.isSuffixOf (pyLower name.data) || ".pptx".data.isSuffixOf (pyLower name.data)

/-- `_process_single_document`: download (a failure is a silent skip),
fingerprint, classify, then extract and process.  Case-study PPT files
are structurally parsed; a non-empty parse takes the multi-record
branch, an empty parse falls back to whole-file text extraction. -/
def processSingleDocument (O : Oracles) (st : EtlState) (stats : Stats) (f : FileInfo) :
    ProcResult :=
  match O.download f.path with
  | none => ⟨st, stats, [], false⟩
  | some bytes =>
    let fhash := sha256 bytes
    let fsize := bytes.length
    match classifyDocument st stats f.path f.name fhash fsize with
    | .skip => ⟨st, stats, [], false⟩
    | .proceed st1 stats1 doc =>
      if doc.document_type == "case_study" && isPptName f.name then
        let records := O.parse_ppt bytes
        if records.isEmpty then
          standardTail O st1 stats1 doc (O.extract_ppt bytes)
        else
          caseStudyBranch O f fhash fsize st1 stats1 doc records
      else
        standardTail O st1 stats1 doc (O.extract bytes f.name)

/-- Is the blob under a `pending/` folder (skipped by the scan loop)? -/
def isPendingPath (path : String) : Bool :=
  "pending/".data.isPrefixOf path.data || containsSub path.data "/pending/".data

/-- One iteration of the scan loop over listed files. -/
def scanStep (O : Oracles) (acc : EtlState × Stats × List EtlEvent) (f : FileInfo) :
    EtlState × Stats × List EtlEvent :=
  let st := acc.1
  let stats := acc.2.1
  let evs := acc.2.2
  if isPendingPath f.path then
    (st, { stats with pending_approval := stats.pending_approval + 1 }, evs)
  else
    let r := processSingleDocument O st stats f
    if r.raised then
      (r.st, { r.stats with failed := r.stats.failed + 1 }, evs ++ r.events)
    else (r.st, r.stats, evs ++ r.events)

/-- `scan_and_process_new_documents`: statistics start at zero with
`scanned` set to the number of listed files, then every file is
processed in order. -/
def scanAndProcess (O : Oracles) (st : EtlState) (files : List FileInfo) :
    EtlState × Stats × List EtlEvent :=
  files.foldl (scanStep O)
    (st, { scanned := files.length, new := 0, updated := 0, failed := 0, pending_approval := 0 }, [])

/-- Replace the pending row with `p.id` by `p`. -/
def updatePendings (ps : List PendingKBUpdate) (p : PendingKBUpdate) :
    List PendingKBUpdate :=
  ps.map (fun x => if x.id == p.id then p else x)

/-- `approve_and_process`: returns the (possibly rolled-back) session
state together with either the processed document's id or the raised
error.  A missing or non-`pending` record raises before any mutation; a
failure after the status flip rolls the session back to the entry
state. -/
def approveAndProcess (O : Oracles) (st : EtlState) (pendingUpdateId : Nat)
    (adminUserId : String) (adminComment : Option String) :
    EtlState × Except String Nat :=
  match st.pendings.find? (fun p => p.id == pendingUpdateId) with
  | none => (st, .error "Pending update not found")
  | some pending =>
    if pending.status != "pending" then (st, .error "Update already reviewed")
    else
      match st.docs.find? (fun d => d.id == pending.new_document_id) with
      | none => (st, .error "Document not found")
      | some doc =>
        let p' := { pending with
          status := "approved"
          reviewed_by := some adminUserId
          admin_comment := adminComment }
        let st1 := { st with pendings := updatePendings st.pendings p' }
        match O.download doc.blob_path with
        | none => (st, .error "Download failed")
        | some bytes =>
          let v := vectorizeAndStore O st1 doc (O.extract bytes doc.file_name)
          if v.success then (v.st, .ok doc.id)
          else (st, .error "Processing failed")

/-- `reject_update`: a missing or non-`pending` record raises before any
mutation; otherwise the row is closed as `rejected`. -/
def rejectUpdate (st : EtlState) (pendingUpdateId : Nat) (adminUserId : String)
    (adminComment : Option String) : EtlState × Except String Nat :=
  match st.pendings.find? (fun p => p.id == pendingUpdateId) with
  | none => (st, .error "Pending update not found")
  | some pending =>
    if pending.status != "pending" then (st, .error "Update already reviewed")
    else
      let p' := { pending with
        status := "rejected"
        reviewed_by := some adminUserId
        admin_comment := adminComment }
      ({ st with pendings := updatePendings st.pendings p' }, .ok pending.id)

/-! ## Shared lemmas -/

theorem getColl_setColl (q : QdrantState) (c : String) (pts : List VPoint) :
    getColl (setColl q c pts) c = pts := by
  unfold getColl setColl
  by_cases h : c == CASE_STUDY_COLLECTION <;> simp [h]

theorem setColl_setColl (q : QdrantState) (c : String) (pts pts' : List VPoint) :
    setColl (setColl q c pts) c pts' = setColl q c pts' := by
  unfold setColl
  by_cases h : c == CASE_STUDY_COLLECTION <;> simp [h]

theorem filter_self_pids (pts : List VPoint) :
    pts.filter (fun p => pts.all (fun q => q.pid != p.pid)) = [] := by
  rw [List.filter_eq_nil_iff]
  intro p hp
  simp only [List.all_eq_true, Bool.not_eq_true]
  intro hall
  have := hall p hp
  simp at this

theorem upsertPointList_idem (coll pts : List VPoint) :
    upsertPointList (upsertPointList coll pts) pts = upsertPointList coll pts := by
  unfold upsertPointList
  rw [List.filter_append, List.filter_filter, filter_self_pids, List.append_nil]
  congr 1
  apply List.filter_congr
  intro a _
  simp

/-! ## Claim theorems -/

/-- Claim C8 — counterexample.  `_chunk_text` on the empty text takes the
short-text branch `if len(text) <= self.chunk_size: return [text]` and
returns `[""]`: the returned list contains an empty chunk, so it is not
true that for every input no chunk in the returned list is empty. -/
theorem chunkText_empty_counterexample :
    chunkText [] = [[]] ∧ ¬ (∀ c ∈ chunkText [], c ≠ ([] : List Char)) := by
  refine ⟨by decide, fun h => (h [] (by decide)) rfl⟩

/-- Claim C8 — amended.  For every input text, the chunker returns the
text whole when its length is at most one window (1000 characters), and
provided the input text is non-empty, no chunk in the returned list is
empty (the short branch returns the non-empty text itself; the long
branch filters out falsy chunks). -/
theorem chunkText_whole_and_nonempty (text : List Char) :
    (text.length ≤ chunk_size → chunkText text = [text]) ∧
    (text ≠ [] → ∀ c ∈ chunkText text, c ≠ []) := by
  constructor
  · intro h
    simp [chunkText, if_pos h]
  · intro hne c hc
    by_cases hlen : text.length ≤ chunk_size
    · simp only [chunkText, if_pos hlen, List.mem_singleton] at hc
      simpa [hc] using hne
    · simp only [chunkText, if_neg hlen] at hc
      have h2 := (List.mem_filter.mp hc).2
      simp only [Bool.not_eq_true'] at h2
      intro hceq
      rw [hceq] at h2
      simp at h2

/-- Claim C8 — witness for the amended theorem at the one-character
text `"a"`. -/
theorem chunkText_whole_and_nonempty_witness :
    chunkText ['a'] = [['a']] ∧ ∀ c ∈ chunkText ['a'], c ≠ [] :=
  ⟨(chunkText_whole_and_nonempty ['a']).1 (by decide),
   fun c hc => (chunkText_whole_and_nonempty ['a']).2 (by decide) c hc⟩

/-- Claim C10.  Each iteration of the `_chunk_text` loop moves the window
start from `start` to `(chunkStep text start).2 - overlap`, and this
advance is at least 500 characters (in fact at least 502: either the
window is taken whole, `end = start + 1000`, or it is cut at a sentence
boundary strictly beyond 70% of the window, `end ≥ start + 702`; the
overlap subtracts 200).  The advance is strictly positive, so the loop
`chunkLoop` — and with it `_chunk_text` — always terminates, which is
what lets the embedding define it as a total function on bounded fuel. -/
theorem chunkStep_advances (text : List Char) (start : Nat) :
    start + 500 ≤ (chunkStep text start).2 - overlap := by
  have h := chunkStep_snd_lower text start
  simp only [overlap]
  omega

/-- Claim C9.  An approval or rejection targeting a pending-update id
that does not exist, or whose record is not in status `pending`, fails
with an error and returns the store state unchanged: no pending row,
document row or vector is modified, and the transition is never a silent
no-op. -/
theorem approval_misuse_rejected (O : Oracles) (st : EtlState) (pid : Nat)
    (admin : String) (comment : Option String)
    (h : st.pendings.find? (fun p => p.id == pid) = none ∨
      ∃ p, st.pendings.find? (fun q => q.id == pid) = some p ∧ p.status ≠ "pending") :
    (∃ msg, approveAndProcess O st pid admin comment = (st, .error msg)) ∧
    (∃ msg, rejectUpdate st pid admin comment = (st, .error msg)) := by
  rcases h with h | ⟨p, hfind, hstatus⟩
  · exact ⟨⟨"Pending update not found", by simp [approveAndProcess, h]⟩,
      ⟨"Pending update not found", by simp [rejectUpdate, h]⟩⟩
  · have hb : (p.status != "pending") = true := by
      simpa using hstatus
    exact ⟨⟨"Update already reviewed", by simp [approveAndProcess, hfind, hb]⟩,
      ⟨"Update already reviewed", by simp [rejectUpdate, hfind, hb]⟩⟩

/-- A trivial oracle assembly for concrete runs. -/
def O0 : Oracles :=
  ⟨fun _ => none, fun _ _ => [], fun _ => [], fun _ => [], fun _ => [], fun _ _ => []⟩

/-- The empty session state. -/
def st0 : EtlState := ⟨[], [], [], ⟨[], []⟩, 0⟩

/-- A closed pending row used to exercise the non-`pending` misuse case. -/
def closedPending : PendingKBUpdate :=
  { id := 7, new_document_id := 1, related_documents := [], update_type := "update",
    similarity_score := mkRat 9 10, status := "approved", reviewed_by := some "admin",
    admin_comment := none }

/-- Claim C9 — witness: approving or rejecting the already-approved row
`closedPending` errors and leaves the state unchanged. -/
theorem approval_misuse_rejected_witness :
    (∃ msg, approveAndProcess O0 ⟨[], [closedPending], [], ⟨[], []⟩, 8⟩ 7 "admin2" none
      = (⟨[], [closedPending], [], ⟨[], []⟩, 8⟩, .error msg)) ∧
    (∃ msg, rejectUpdate ⟨[], [closedPending], [], ⟨[], []⟩, 8⟩ 7 "admin2" none
      = (⟨[], [closedPending], [], ⟨[], []⟩, 8⟩, .error msg)) :=
  approval_misuse_rejected O0 ⟨[], [closedPending], [], ⟨[], []⟩, 8⟩ 7 "admin2" none
    (Or.inr ⟨closedPending, by decide, by decide⟩)

/-- Claim C6.  Vector point ids are a deterministic function of the
document id and the chunk index, namely
`pointIdFor = sha256(f"{id}_{idx}")[:8]`, so vectorizing the same
document with the same extracted text a second time (with any row
version carrying the same id and category, e.g. after a failed or
successful first attempt) leaves the vector index exactly as after the
first vectorization: the same point ids are overwritten by the upsert,
never a strict superset.  The second conjunct exhibits the upserted id
set of a successful run as that function of the id and the chunk
indices. -/
theorem vector_ids_deterministic (O : Oracles) (st : EtlState)
    (doc doc2 : KnowledgeBaseDocument) (text : List Char)
    (hid : doc2.id = doc.id) (htype : doc2.document_type = doc.document_type) :
    (vectorizeAndStore O (vectorizeAndStore O st doc text).st doc2 text).st.qdrant
      = (vectorizeAndStore O st doc text).st.qdrant ∧
    ((vectorizeAndStore O st doc text).success = true →
      (vectorizeAndStore O st doc text).events
        = [.upsertPoints
            (if doc.document_type == "case_study" then CASE_STUDY_COLLECTION else QDRANT_COLLECTION)
            doc.id ((List.range (chunkText text).length).map (pointIdFor doc.id))]) := by
  by_cases hc : ((O.embed (chunkText text)).isEmpty
      || (O.embed (chunkText text)).length != (chunkText text).length) = true
  · constructor
    · simp only [vectorizeAndStore, hc, if_true]
    · intro hs
      simp only [vectorizeAndStore, hc, if_true] at hs
      exact absurd hs (by simp)
  · have hc' : ((O.embed (chunkText text)).isEmpty
        || (O.embed (chunkText text)).length != (chunkText text).length) = false := by
      simpa using hc
    constructor
    · simp only [vectorizeAndStore, hc', Bool.false_eq_true, if_false, hid, htype]
      rw [getColl_setColl, upsertPointList_idem, setColl_setColl]
    · intro _
      simp only [vectorizeAndStore, hc', Bool.false_eq_true, if_false]

/-! ## Concrete fixtures for counterexample runs -/

/-- Zeroed scan statistics. -/
def stats0 : Stats := ⟨0, 0, 0, 0, 0⟩

/-- An admitted (vectorized) general KB document. -/
def kbDoc1 : KnowledgeBaseDocument :=
  { id := 1, file_name := "existing.txt", blob_path := "kb/existing.txt", file_hash := [0],
    file_size := 1, document_type := "general", case_study_metadata := none,
    is_vectorized := true, vector_count := 1, qdrant_point_ids := [5] }

/-- C3 fixture: a general document whose stored fingerprint will differ
from the fresh one, and which already has an open pending approval. -/
def changedDoc : KnowledgeBaseDocument :=
  { id := 2, file_name := "a.txt", blob_path := "kb/a.txt", file_hash := [9, 9],
    file_size := 2, document_type := "general", case_study_metadata := none,
    is_vectorized := false, vector_count := 0, qdrant_point_ids := [] }

def openPendingFor2 : PendingKBUpdate :=
  { id := 10, new_document_id := 2, related_documents := [], update_type := "update",
    similarity_score := mkRat 9 10, status := "pending", reviewed_by := none,
    admin_comment := none }

def c3State : EtlState := ⟨[kbDoc1, changedDoc], [openPendingFor2], [], ⟨[], []⟩, 11⟩

def c3Oracle : Oracles :=
  { download := fun p => if p == "kb/a.txt" then some [1, 2, 3] else none
    extract := fun _ _ => List.replicate 60 'a'
    extract_ppt := fun _ => []
    parse_ppt := fun _ => []
    embed := fun xs => xs.map (fun _ => [mkRat 1 1])
    search := fun _ _ => [⟨some 1, mkRat 9 10⟩] }

def c3Run : ProcResult := processSingleDocument c3Oracle c3State stats0 ⟨"kb/a.txt", "a.txt"⟩

/-- Claim C3 — counterexample.  Document 2 enters the scan with exactly
one open (`pending`) approval; its bytes have changed (stored hash
`[9, 9]` differs from the fresh hash), and the changed-fingerprint path
of `_process_single_document` reprocesses it with no check for an
existing open approval, so after the scan two open approvals exist for
the same candidate document — the claim that every approval-creating
path first checks for an existing open approval is false. -/
theorem double_open_pending_counterexample :
    (c3State.pendings.filter
      (fun p => p.new_document_id == 2 && p.status == "pending")).length = 1 ∧
    (c3Run.st.pendings.filter
      (fun p => p.new_document_id == 2 && p.status == "pending")).length = 2 := by
  constructor
  · decide
  · decide

/-! C4 fixture: a case-study document that is not a PPT file, so it is
extracted on the standard path and probed for similarity. -/

def c4Oracle : Oracles :=
  { download := fun p => if p == "kb/cs_notes.pdf" then some [8] else none
    extract := fun _ _ => List.replicate 60 'n'
    extract_ppt := fun _ => []
    parse_ppt := fun _ => []
    embed := fun xs => xs.map (fun _ => [mkRat 1 1])
    search := fun _ _ => [] }

def c4Run : ProcResult :=
  processSingleDocument c4Oracle ⟨[], [], [], ⟨[], []⟩, 1⟩ stats0
    ⟨"kb/cs_notes.pdf", "cs_notes.pdf"⟩

/-- Claim C4 — counterexample.  `cs_notes.pdf` is classified as a
`case_study` document (the `cs_` filename heuristic), but because it is
not a PPT file it flows through the standard path and
`_find_similar_documents` issues its probe against `QDRANT_COLLECTION`
— the general knowledge collection — not the case-study collection:
the claim that a case-study probe is computed only against the
case-study collection is false. -/
theorem case_study_probe_queries_general_counterexample :
    (c4Run.st.docs.map (fun d => d.document_type)) = ["case_study"] ∧
    EtlEvent.searchIndex QDRANT_COLLECTION ∈ c4Run.events ∧
    QDRANT_COLLECTION ≠ CASE_STUDY_COLLECTION := by
  refine ⟨by decide, by decide, by decide⟩

/-! C5 fixture: the similarity probe returns a resolvable hit at exactly
the threshold score 0.85. -/

def c5State : EtlState := ⟨[kbDoc1], [], [], ⟨[], []⟩, 2⟩

def c5Oracle : Oracles :=
  { download := fun p => if p == "kb/b.txt" then some [4, 5] else none
    extract := fun _ _ => List.replicate 60 'b'
    extract_ppt := fun _ => []
    parse_ppt := fun _ => []
    embed := fun xs => xs.map (fun _ => [mkRat 1 1])
    search := fun _ _ => [⟨some 1, mkRat 85 100⟩] }

def c5Run : ProcResult := processSingleDocument c5Oracle c5State stats0 ⟨"kb/b.txt", "b.txt"⟩

/-- Claim C5 — counterexample.  When the index returns a resolvable
match at score exactly `T = 0.85` (the search is issued with
`score_threshold = 0.85`, which does not exclude a hit at the
threshold), the best score `s = 0.85` satisfies `s ≤ T`, yet the
document is **not** committed directly: `_create_pending_approval` is
called and its final `else` branch files a PendingApproval with update
type `"new"`; no vectors are upserted.  The claim that `s ≤ T` always
leads to a direct commit with no PendingApproval is false. -/
theorem threshold_boundary_counterexample :
    ¬ mkRat 85 100 > similarity_threshold ∧
    (c5Run.st.pendings.map (fun p => (p.update_type, p.similarity_score)))
      = [("new", mkRat 85 100)] ∧
    (c5Run.st.docs.map (fun d => d.is_vectorized)) = [true, false] ∧
    (c5Run.events.all (fun e => match e with
      | .upsertPoints _ _ _ => false
      | _ => true)) = true := by
  refine ⟨by decide, by decide, by decide, by decide⟩

/-! C1 fixture: a structurally parsed case-study PPT whose content the
index would score at 0.99 against an admitted document. -/

def c1Record : CaseStudyRecord := ⟨"Acme", "", "", "", "1", List.replicate 60 'x'⟩

def c1Oracle : Oracles :=
  { download := fun p => if p == "kb/cs_deck.pptx" then some [7] else none
    extract := fun _ _ => []
    extract_ppt := fun _ => []
    parse_ppt := fun _ => [c1Record]
    embed := fun xs => xs.map (fun _ => [mkRat 1 1])
    search := fun _ _ => [⟨some 1, mkRat 99 100⟩] }

def c1State : EtlState := ⟨[kbDoc1], [], [], ⟨[], []⟩, 2⟩

def c1Run : ProcResult :=
  processSingleDocument c1Oracle c1State stats0 ⟨"kb/cs_deck.pptx", "cs_deck.pptx"⟩

/-- Claim C1 — counterexample.  The candidate `cs_deck.pptx` parses into
a structured case-study record, and on that branch
`_process_single_document` calls `_vectorize_and_store` directly: no
similarity probe is ever issued and no PendingApproval is created, even
though the index (the oracle) would report similarity 0.99 > T = 0.85
between the candidate's content and the already-admitted document 1.
The candidate ends the scan vectorized with its vectors upserted while
no approval row exists, so the claim is false for structurally parsed
case-study documents. -/
theorem case_study_committed_without_approval_counterexample :
    mkRat 99 100 > similarity_threshold ∧
    c1Oracle.search QDRANT_COLLECTION ((List.replicate 60 'x').take 2000)
      = [⟨some 1, mkRat 99 100⟩] ∧
    c1Run.st.pendings = [] ∧
    ((c1Run.st.docs.filter (fun d => d.blob_path == "kb/cs_deck.pptx")).map
      (fun d => d.is_vectorized)) = [true] ∧
    (c1Run.events.any (fun e => match e with
      | .upsertPoints _ _ _ => true
      | _ => false)) = true ∧
    (c1Run.events.all (fun e => match e with
      | .searchIndex _ => false
      | _ => true)) = true := by
  refine ⟨by decide, by decide, by decide, by decide, by decide, by decide⟩

/-! C7 fixture: a source file that previously yielded two structured
records, re-scanned after its parse shrinks to zero records. -/

def c7DocBase : KnowledgeBaseDocument :=
  { id := 1, file_name := "cs_deck.pptx", blob_path := "kb/cs_deck.pptx", file_hash := [0],
    file_size := 1, document_type := "case_study", case_study_metadata := none,
    is_vectorized := true, vector_count := 1, qdrant_point_ids := [11] }

def c7DocSynth : KnowledgeBaseDocument :=
  { id := 2, file_name := "cs_deck.pptx - Acme", blob_path := "kb/cs_deck.pptx#case_study_2",
    file_hash := [0], file_size := 1, document_type := "case_study",
    case_study_metadata := none, is_vectorized := true, vector_count := 1,
    qdrant_point_ids := [12] }

def c7State : EtlState :=
  ⟨[c7DocBase, c7DocSynth], [], [], ⟨[], [⟨11, 1, 0⟩, ⟨12, 2, 0⟩]⟩, 3⟩

def c7Oracle : Oracles :=
  { download := fun p => if p == "kb/cs_deck.pptx" then some [3, 4] else none
    extract := fun _ _ => []
    extract_ppt := fun _ => []
    parse_ppt := fun _ => []
    embed := fun xs => xs.map (fun _ => [mkRat 1 1])
    search := fun _ _ => [] }

def c7Run : ProcResult :=
  processSingleDocument c7Oracle c7State stats0 ⟨"kb/cs_deck.pptx", "cs_deck.pptx"⟩

/-- Claim C7 — counterexample.  The source file previously yielded
`N = 2` structured records (document rows 1 and 2, vectors `[11]` and
`[12]` in the case-study collection); on the re-scan its changed bytes
parse to `M = 0` records (`M < N`).  The code then takes the full-text
fallback instead of the structured branch, so the orphan reconciliation
never runs: both Document rows remain (the claim demands exactly
`M = 0` rows) and neither orphan's vectors are deleted.  The claim as a
universal statement over `M < N` is therefore false at `M = 0`. -/
theorem orphan_zero_records_counterexample :
    c7Oracle.parse_ppt [3, 4] = [] ∧
    c7Run.st.docs.length = 2 ∧
    c7Run.st.qdrant.case_studies = [⟨11, 1, 0⟩, ⟨12, 2, 0⟩] ∧
    (c7Run.events.all (fun e => match e with
      | .deleteVectors _ _ => false
      | .deleteDocRow _ => false
      | _ => true)) = true := by
  refine ⟨by decide, by decide, by decide, by decide⟩

/-! ## Skip lemmas shared by several claims -/

/-- A document whose stored fingerprint matches the fresh bytes and
which is either already vectorized or blocked on an open approval is
skipped entirely: no state change, no events, no raise. -/
theorem processSingle_skip_settled (O : Oracles) (st : EtlState) (stats : Stats)
    (f : FileInfo) (bytes : List Nat) (d : KnowledgeBaseDocument)
    (hdl : O.download f.path = some bytes)
    (hfind : st.docs.find? (fun x => x.blob_path == f.path) = some d)
    (hhash : d.file_hash = sha256 bytes)
    (hsettled : d.is_vectorized = true ∨ hasOpenPending st d.id = true) :
    processSingleDocument O st stats f = ⟨st, stats, [], false⟩ := by
  have hb : (d.file_hash == sha256 bytes) = true := by simp [hhash]
  cases hv : d.is_vectorized with
  | true =>
    simp only [processSingleDocument, hdl, classifyDocument, hfind, hb, if_true, hv]
  | false =>
    rcases hsettled with h | h
    · rw [hv] at h; exact absurd h (by simp)
    · simp only [processSingleDocument, hdl, classifyDocument, hfind, hb, if_true, hv,
        Bool.false_eq_true, if_false, h]

/-- Claim C3 — amended theorem.  The open-approval check guards exactly
the unchanged-fingerprint reprocessing path: when the stored fingerprint
matches the fresh bytes and an open (`pending`) approval exists for the
document, the scan skips the document entirely — no second approval is
created, nothing is vectorized, and the state is untouched.  (The
changed-fingerprint path performs no such check; see the
counterexample.) -/
theorem open_pending_blocks_reprocessing (O : Oracles) (st : EtlState) (stats : Stats)
    (f : FileInfo) (bytes : List Nat) (d : KnowledgeBaseDocument)
    (hdl : O.download f.path = some bytes)
    (hfind : st.docs.find? (fun x => x.blob_path == f.path) = some d)
    (hhash : d.file_hash = sha256 bytes)
    (hpend : hasOpenPending st d.id = true) :
    processSingleDocument O st stats f = ⟨st, stats, [], false⟩ :=
  processSingle_skip_settled O st stats f bytes d hdl hfind hhash (Or.inr hpend)

/-- C3 witness fixture: an unchanged, unvectorized document with an open
approval. -/
def pendingBlockedDoc : KnowledgeBaseDocument :=
  { id := 3, file_name := "p.txt", blob_path := "kb/p.txt", file_hash := sha256 [1, 2, 3],
    file_size := 3, document_type := "general", case_study_metadata := none,
    is_vectorized := false, vector_count := 0, qdrant_point_ids := [] }

def openPendingFor3 : PendingKBUpdate :=
  { id := 12, new_document_id := 3, related_documents := [], update_type := "update",
    similarity_score := mkRat 9 10, status := "pending", reviewed_by := none,
    admin_comment := none }

def c3wState : EtlState := ⟨[pendingBlockedDoc], [openPendingFor3], [], ⟨[], []⟩, 13⟩

def c3wOracle : Oracles :=
  { download := fun p => if p == "kb/p.txt" then some [1, 2, 3] else none
    extract := fun _ _ => List.replicate 60 'a'
    extract_ppt := fun _ => []
    parse_ppt := fun _ => []
    embed := fun xs => xs.map (fun _ => [mkRat 1 1])
    search := fun _ _ => [] }

/-- Claim C3 — witness for the amended theorem. -/
theorem open_pending_blocks_reprocessing_witness :
    processSingleDocument c3wOracle c3wState stats0 ⟨"kb/p.txt", "p.txt"⟩
      = ⟨c3wState, stats0, [], false⟩ :=
  open_pending_blocks_reprocessing c3wOracle c3wState stats0 ⟨"kb/p.txt", "p.txt"⟩
    [1, 2, 3] pendingBlockedDoc rfl (by decide) rfl (by decide)

theorem pyStrip_length_le (s : List Char) : (pyStrip s).length ≤ s.length := by
  unfold pyStrip
  calc ((s.dropWhile isPyWhitespace).reverse.dropWhile isPyWhitespace).reverse.length
      = ((s.dropWhile isPyWhitespace).reverse.dropWhile isPyWhitespace).length := by
        rw [List.length_reverse]
    _ ≤ (s.dropWhile isPyWhitespace).reverse.length :=
        (List.dropWhile_sublist isPyWhitespace).length_le
    _ = (s.dropWhile isPyWhitespace).length := by rw [List.length_reverse]
    _ ≤ s.length := (List.dropWhile_sublist isPyWhitespace).length_le

/-- With substantial text, the guard at the head of the standard tail is
passed. -/
theorem standardTail_guard_false (text : List Char) (h50 : 50 ≤ (pyStrip text).length) :
    (text.isEmpty || decide ((pyStrip text).length < 50)) = false := by
  have hlen : 50 ≤ text.length := le_trans h50 (pyStrip_length_le text)
  have hne : text ≠ [] := by
    intro h
    rw [h] at hlen
    simp at hlen
  simp [List.isEmpty_eq_true, hne]
  omega

/-- Case analysis of the standard tail: a no-match probe leads to a
direct commit (one job appended, pendings untouched), a matched probe
leads to exactly one pending row classified by the best score. -/
theorem standardTail_cases (O : Oracles) (st : EtlState) (stats : Stats)
    (doc : KnowledgeBaseDocument) (text : List Char)
    (h50 : 50 ≤ (pyStrip text).length) :
    (resolveHits st.docs (O.search QDRANT_COLLECTION (text.take 2000)) doc.id = [] →
      (standardTail O st stats doc text).st.pendings = st.pendings ∧
      (standardTail O st stats doc text).st.jobs.length = st.jobs.length + 1) ∧
    (resolveHits st.docs (O.search QDRANT_COLLECTION (text.take 2000)) doc.id ≠ [] →
      (standardTail O st stats doc text).st.pendings = st.pendings ++
        [{ id := st.next_id, new_document_id := doc.id,
           related_documents :=
             resolveHits st.docs (O.search QDRANT_COLLECTION (text.take 2000)) doc.id,
           update_type :=
             (if maxScore (resolveHits st.docs (O.search QDRANT_COLLECTION (text.take 2000)) doc.id)
                  > mkRat 95 100 then "duplicate"
              else if maxScore (resolveHits st.docs (O.search QDRANT_COLLECTION (text.take 2000)) doc.id)
                  > similarity_threshold then "update"
              else "new"),
           similarity_score :=
             maxScore (resolveHits st.docs (O.search QDRANT_COLLECTION (text.take 2000)) doc.id),
           status := "pending", reviewed_by := none, admin_comment := none }] ∧
      (standardTail O st stats doc text).st.docs = st.docs ∧
      (standardTail O st stats doc text).st.qdrant = st.qdrant ∧
      (standardTail O st stats doc text).st.jobs = st.jobs ∧
      (standardTail O st stats doc text).events
        = [.searchIndex QDRANT_COLLECTION, .createPending doc.id] ∧
      (standardTail O st stats doc text).raised = false) := by
  have hg := standardTail_guard_false text h50
  constructor
  · intro hempty
    simp only [standardTail, hg, Bool.false_eq_true, if_false, findSimilar, hempty]
    simp only [List.isEmpty_nil, if_true, vectorizeAndStore]
    by_cases hc : ((O.embed (chunkText text)).isEmpty
        || (O.embed (chunkText text)).length != (chunkText text).length) = true
    · simp [hc]
    · simp only [Bool.not_eq_true] at hc
      simp [hc]
  · intro hne
    simp only [standardTail, hg, Bool.false_eq_true, if_false, findSimilar]
    have hf : (resolveHits st.docs (O.search QDRANT_COLLECTION (text.take 2000))
        doc.id).isEmpty = false := by
      cases hh : (resolveHits st.docs (O.search QDRANT_COLLECTION (text.take 2000))
          doc.id).isEmpty
      · rfl
      · exact absurd (List.isEmpty_iff.mp hh) hne
    simp only [hf, Bool.false_eq_true, if_false, createPendingApproval]
    refine ⟨trivial, trivial, trivial, trivial, by simp, trivial⟩

/-- Claim C5 — amended theorem.  For a document slated for
(re)processing with substantial text, the decision is a function of the
hits the index returns, resolved against the metadata store: if no
resolvable match comes back, the document is committed directly via
Vectorize-and-Store (a processing job is appended, no PendingApproval
is created); if resolvable matches come back with best score `s`, a
PendingApproval in state `pending` is created instead of a commit (no
job), classified `duplicate` when `s > 0.95`, `update` when
`0.85 < s ≤ 0.95`, and `new` when `s ≤ 0.85` (reachable only at the
threshold boundary, since the query is issued with
`score_threshold = 0.85`). -/
theorem admission_decision_thresholds (O : Oracles) (st : EtlState) (stats : Stats)
    (doc : KnowledgeBaseDocument) (text : List Char)
    (h50 : 50 ≤ (pyStrip text).length) :
    (resolveHits st.docs (O.search QDRANT_COLLECTION (text.take 2000)) doc.id = [] →
      (standardTail O st stats doc text).st.pendings = st.pendings ∧
      (standardTail O st stats doc text).st.jobs.length = st.jobs.length + 1) ∧
    (resolveHits st.docs (O.search QDRANT_COLLECTION (text.take 2000)) doc.id ≠ [] →
      (standardTail O st stats doc text).st.pendings = st.pendings ++
        [{ id := st.next_id, new_document_id := doc.id,
           related_documents :=
             resolveHits st.docs (O.search QDRANT_COLLECTION (text.take 2000)) doc.id,
           update_type :=
             (if maxScore (resolveHits st.docs (O.search QDRANT_COLLECTION (text.take 2000)) doc.id)
                  > mkRat 95 100 then "duplicate"
              else if maxScore (resolveHits st.docs (O.search QDRANT_COLLECTION (text.take 2000)) doc.id)
                  > similarity_threshold then "update"
              else "new"),
           similarity_score :=
             maxScore (resolveHits st.docs (O.search QDRANT_COLLECTION (text.take 2000)) doc.id),
           status := "pending", reviewed_by := none, admin_comment := none }] ∧
      (standardTail O st stats doc text).st.jobs = st.jobs ∧
      (standardTail O st stats doc text).events
        = [.searchIndex QDRANT_COLLECTION, .createPending doc.id]) :=
  ⟨(standardTail_cases O st stats doc text h50).1, fun hne =>
    ⟨((standardTail_cases O st stats doc text h50).2 hne).1,
     ((standardTail_cases O st stats doc text h50).2 hne).2.2.2.1,
     ((standardTail_cases O st stats doc text h50).2 hne).2.2.2.2.1⟩⟩

/-- Claim C5 — witness for the amended theorem: the boundary-score run
of the C5 fixture produces exactly the predicted pending row. -/
theorem admission_decision_thresholds_witness :
    (standardTail c5Oracle c5State stats0 changedDoc (List.replicate 60 'b')).st.pendings
      = [{ id := 2, new_document_id := 2,
           related_documents := [⟨1, "existing.txt", mkRat 85 100, "kb/existing.txt"⟩],
           update_type := "new", similarity_score := mkRat 85 100, status := "pending",
           reviewed_by := none, admin_comment := none }] := by
  have h := (admission_decision_thresholds c5Oracle c5State stats0 changedDoc
    (List.replicate 60 'b') (by decide)).2 (by decide)
  rw [h.1]
  decide

/-! ## Events emitted by the several phases (for the probe-collection
claim) -/

theorem vectorize_events_no_search (O : Oracles) (st : EtlState)
    (doc : KnowledgeBaseDocument) (text : List Char) (c : String) :
    EtlEvent.searchIndex c ∉ (vectorizeAndStore O st doc text).events := by
  unfold vectorizeAndStore
  by_cases hc : ((O.embed (chunkText text)).isEmpty
      || (O.embed (chunkText text)).length != (chunkText text).length) = true
  · simp [hc]
  · simp only [Bool.not_eq_true] at hc
    simp [hc]

theorem caseStudyList_events_no_search (O : Oracles) (f : FileInfo) (fhash : List Nat)
    (fsize : Nat) (doc0 : KnowledgeBaseDocument) (rs : List CaseStudyRecord) :
    ∀ st idx c, EtlEvent.searchIndex c
      ∉ (processCaseStudyList O f fhash fsize doc0 st rs idx).2.1 := by
  induction rs with
  | nil => intro st idx c; simp [processCaseStudyList]
  | cons r rs ih =>
    intro st idx c
    dsimp only [processCaseStudyList]
    split
    · split
      · intro hmem
        rcases List.mem_append.mp hmem with h | h
        · exact vectorize_events_no_search _ _ _ _ c h
        · exact ih _ _ c h
      · exact vectorize_events_no_search _ _ _ _ c
    · exact ih _ _ c

theorem orphanLoop_events_no_search (basePath : String) :
    ∀ fuel st k c, EtlEvent.searchIndex c ∉ (orphanLoop basePath fuel st k).2 := by
  intro fuel
  induction fuel with
  | zero => intro st k c; simp [orphanLoop]
  | succ n ih =>
    intro st k c
    simp only [orphanLoop]
    cases hf : st.docs.find? (fun d => d.blob_path == caseStudyPath basePath k) with
    | none => simp
    | some orphan =>
      simp only [List.mem_cons]
      rintro (h | h | h)
      · cases h
      · cases h
      · exact ih _ _ c h

theorem standardTail_search_mem (O : Oracles) (st : EtlState) (stats : Stats)
    (doc : KnowledgeBaseDocument) (text : List Char) (c : String)
    (hc : EtlEvent.searchIndex c ∈ (standardTail O st stats doc text).events) :
    c = QDRANT_COLLECTION := by
  unfold standardTail at hc
  split at hc
  · simp at hc
  · simp only [findSimilar, createPendingApproval] at hc
    split at hc <;>
      simp only [List.mem_append, List.mem_singleton, List.mem_cons,
        EtlEvent.searchIndex.injEq, List.not_mem_nil, or_false] at hc
    · rcases hc with h | h
      · exact h
      · exact absurd h (vectorize_events_no_search O st doc text c)
    · rcases hc with h | h
      · exact h
      · cases h

/-- Claim C4 — amended theorem.  Whenever the scan processes a document,
every similarity probe it issues queries the general knowledge
collection (`QDRANT_COLLECTION`), whatever the candidate's category:
`_find_similar_documents` hard-codes the KB collection, and the
structured case-study branch issues no probe at all (its events are
upserts and deletes only).  In particular a probe for a `case_study`
candidate is computed against the general collection, not the
case-study collection. -/
theorem probe_always_queries_general (O : Oracles) (st : EtlState) (stats : Stats)
    (f : FileInfo) :
    ∀ c, EtlEvent.searchIndex c ∈ (processSingleDocument O st stats f).events →
      c = QDRANT_COLLECTION := by
  intro c hc
  unfold processSingleDocument at hc
  split at hc
  · simp at hc
  · dsimp only at hc
    split at hc
    · simp at hc
    · split at hc
      · split at hc
        · -- empty parse: fallback standard tail
          exact standardTail_search_mem _ _ _ _ _ c hc
        · -- structured branch
          unfold caseStudyBranch at hc
          dsimp only at hc
          split at hc
          · exact absurd hc (caseStudyList_events_no_search _ _ _ _ _ _ _ _ c)
          · simp only [List.mem_append] at hc
            rcases hc with h | h
            · exact absurd h (caseStudyList_events_no_search _ _ _ _ _ _ _ _ c)
            · exact absurd h (orphanLoop_events_no_search _ _ _ _ c)
      · exact standardTail_search_mem _ _ _ _ _ c hc

/-- Claim C4 — witness: the C4 fixture run issues a probe event, and it
targets the general collection. -/
theorem probe_always_queries_general_witness :
    EtlEvent.searchIndex QDRANT_COLLECTION ∈ c4Run.events ∧
    QDRANT_COLLECTION = QDRANT_COLLECTION :=
  ⟨by decide, probe_always_queries_general c4Oracle ⟨[], [], [], ⟨[], []⟩, 1⟩ stats0
    ⟨"kb/cs_notes.pdf", "cs_notes.pdf"⟩ QDRANT_COLLECTION (by decide)⟩

/-- The document row created for an unseen path. -/
def freshDoc (st : EtlState) (f : FileInfo) (bytes : List Nat) : KnowledgeBaseDocument :=
  { id := st.next_id, file_name := f.name, blob_path := f.path, file_hash := sha256 bytes,
    file_size := bytes.length,
    document_type := if isCaseStudyDocument f.path f.name then "case_study" else "general",
    case_study_metadata := none, is_vectorized := false, vector_count := 0,
    qdrant_point_ids := [] }

/-- After replacing the row found at `path` by an update of itself (same
id, same path), the lookup at `path` finds the updated row. -/
theorem find?_updateDocs_path (docs : List KnowledgeBaseDocument)
    (ex d : KnowledgeBaseDocument) (path : String)
    (hfind : docs.find? (fun x => x.blob_path == path) = some ex)
    (hid : d.id = ex.id) (hpath : d.blob_path = path) :
    (updateDocs docs d).find? (fun x => x.blob_path == path) = some d := by
  have hd : (d.blob_path == path) = true := by simp [hpath]
  induction docs with
  | nil => simp [List.find?] at hfind
  | cons a l ih =>
    simp only [updateDocs, List.map_cons]
    cases hpa : (a.blob_path == path) with
    | true =>
      have hae : a = ex := by
        simp only [List.find?, hpa] at hfind
        exact Option.some_inj.mp hfind
      have haid : (a.id == d.id) = true := by
        rw [hae, hid]
        simp
      simp only [haid, if_true]
      simp only [List.find?, hd]
    | false =>
      have hfind' : List.find? (fun x => x.blob_path == path) l = some ex := by
        simpa only [List.find?, hpa] using hfind
      by_cases haid : (a.id == d.id) = true
      · simp only [haid, if_true]
        simp only [List.find?, hd]
      · simp only [haid, Bool.false_eq_true, if_false]
        simp only [List.find?, hpa]
        exact ih hfind'

/-- What every `proceed` outcome of the admission-decision ladder
guarantees about the classified document — whether the candidate is
unseen, changed, or unvectorized-without-approval: its stored
fingerprint is the fresh one, it sits at the scanned path (and is the
row the next lookup at that path returns), it is not vectorized, and
the ladder has touched no pendings, jobs or vectors. -/
theorem classify_proceed_props (st : EtlState) (stats : Stats) (path name : String)
    (fhash : List Nat) (fsize : Nat) (st1 : EtlState) (stats1 : Stats)
    (doc : KnowledgeBaseDocument)
    (h : classifyDocument st stats path name fhash fsize
      = Classify.proceed st1 stats1 doc) :
    doc.file_hash = fhash ∧ doc.blob_path = path ∧ doc.is_vectorized = false ∧
    st1.docs.find? (fun x => x.blob_path == path) = some doc ∧
    st1.pendings = st.pendings ∧ st1.jobs = st.jobs ∧ st1.qdrant = st.qdrant := by
  unfold classifyDocument at h
  cases hfind : st.docs.find? (fun d => d.blob_path == path) with
  | some existing =>
    have hexpath : existing.blob_path = path := by
      simpa using List.find?_some hfind
    simp only [hfind] at h
    by_cases hh : (existing.file_hash == fhash) = true
    · rw [if_pos hh] at h
      by_cases hv : existing.is_vectorized = true
      · rw [if_pos hv] at h
        cases h
      · have hv' : existing.is_vectorized = false := by simpa using hv
        rw [if_neg hv] at h
        by_cases hp : hasOpenPending st existing.id = true
        · rw [if_pos hp] at h
          cases h
        · rw [if_neg hp] at h
          injection h with h1 h2 h3
          subst h1
          subst h3
          exact ⟨by simpa using hh, hexpath, hv', hfind, rfl, rfl, rfl⟩
    · rw [if_neg hh] at h
      injection h with h1 h2 h3
      subst h1
      subst h3
      refine ⟨rfl, hexpath, rfl, ?_, rfl, rfl, rfl⟩
      exact find?_updateDocs_path st.docs existing _ path hfind rfl hexpath
  | none =>
    simp only [hfind] at h
    injection h with h1 h2 h3
    subst h1
    subst h3
    refine ⟨rfl, rfl, rfl, ?_, rfl, rfl, rfl⟩
    rw [List.find?_append, hfind]
    simp [List.find?]

/-- Claim C1 — amended theorem.  For every candidate processed on the
standard (probe) path — any candidate that is not a structurally-parsed
case-study PPT, i.e. every unseen, changed, or reset document the
ladder sends on for processing, including a case-study PPT whose
structured parse comes back empty — whose probe returns a hit above the
threshold `T = 0.85` resolving to another admitted document: a
PendingApproval row in state `pending` is created for the candidate,
the candidate's row stays `is_vectorized = false`, no vectors are
upserted (the vector index is untouched and the run's only events are
the probe and the approval), and every further scan of the unchanged
file is a complete no-op while the approval is open, so the candidate
cannot reach the vector index before the row leaves the `pending`
state.  (Structurally parsed case-study records bypass this protection;
see the counterexample.) -/
theorem collision_blocks_admission (O : Oracles) (st : EtlState) (stats : Stats)
    (f : FileInfo) (bytes : List Nat) (st1 : EtlState) (stats1 : Stats)
    (doc : KnowledgeBaseDocument) (text : List Char)
    (hdl : O.download f.path = some bytes)
    (hclass : classifyDocument st stats f.path f.name (sha256 bytes) bytes.length
      = Classify.proceed st1 stats1 doc)
    (hroute :
      ((doc.document_type == "case_study" && isPptName f.name) = false ∧
        text = O.extract bytes f.name) ∨
      ((doc.document_type == "case_study" && isPptName f.name) = true ∧
        O.parse_ppt bytes = [] ∧ text = O.extract_ppt bytes))
    (h50 : 50 ≤ (pyStrip text).length)
    (hhit : ∃ hit ∈ O.search QDRANT_COLLECTION (text.take 2000),
      similarity_threshold < hit.score ∧ ∃ d0 dd, hit.document_id = some d0 ∧
        (d0 == doc.id) = false ∧ st1.docs.find? (fun x => x.id == d0) = some dd) :
    (∃ p, (processSingleDocument O st stats f).st.pendings = st.pendings ++ [p] ∧
      p.new_document_id = doc.id ∧ p.status = "pending") ∧
    (processSingleDocument O st stats f).st.docs = st1.docs ∧
    (processSingleDocument O st stats f).st.docs.find?
      (fun x => x.blob_path == f.path) = some doc ∧
    doc.is_vectorized = false ∧
    (processSingleDocument O st stats f).st.qdrant = st.qdrant ∧
    (processSingleDocument O st stats f).events
      = [.searchIndex QDRANT_COLLECTION, .createPending doc.id] ∧
    (∀ stats', processSingleDocument O (processSingleDocument O st stats f).st stats' f
      = ⟨(processSingleDocument O st stats f).st, stats', [], false⟩) := by
  obtain ⟨hhash, hpath, hnv, hfind1, hpend1, hjobs1, hq1⟩ :=
    classify_proceed_props st stats f.path f.name (sha256 bytes) bytes.length st1 stats1
      doc hclass
  have hrun : processSingleDocument O st stats f = standardTail O st1 stats1 doc text := by
    rcases hroute with ⟨hcond, htext⟩ | ⟨hcond, hparse, htext⟩
    · subst htext
      simp only [processSingleDocument, hdl, hclass, hcond, Bool.false_eq_true, if_false]
    · subst htext
      simp only [processSingleDocument, hdl, hclass, hcond, if_true, hparse,
        List.isEmpty_nil, if_true]
  obtain ⟨hit, hmem, hscore, d0, dd, hdid, hne0, hfindd⟩ := hhit
  have hbne : (d0 != doc.id) = true := by
    simp only [bne, hne0]
    rfl
  have hsim : (⟨dd.id, dd.file_name, hit.score, dd.blob_path⟩ : SimilarDoc) ∈
      resolveHits st1.docs (O.search QDRANT_COLLECTION (text.take 2000)) doc.id := by
    unfold resolveHits
    apply List.mem_filterMap.mpr
    refine ⟨hit, hmem, ?_⟩
    rw [hdid]
    simp only [hbne, if_true, hfindd]
  have hsims_ne : resolveHits st1.docs (O.search QDRANT_COLLECTION (text.take 2000))
      doc.id ≠ [] := List.ne_nil_of_mem hsim
  obtain ⟨hpend, hdocs, hq, hjobs, hevents, hraised⟩ :=
    (standardTail_cases O st1 stats1 doc text h50).2 hsims_ne
  have hfind2 : (processSingleDocument O st stats f).st.docs.find?
      (fun x => x.blob_path == f.path) = some doc := by
    rw [hrun, hdocs]
    exact hfind1
  have hpend2 : hasOpenPending (processSingleDocument O st stats f).st doc.id = true := by
    rw [hrun]
    unfold hasOpenPending
    rw [hpend]
    simp
  refine ⟨⟨_, by rw [hrun, hpend, hpend1], rfl, rfl⟩,
    by rw [hrun]; exact hdocs, hfind2, hnv,
    by rw [hrun, hq, hq1],
    by rw [hrun]; exact hevents, ?_⟩
  intro stats'
  exact processSingle_skip_settled O _ stats' f bytes doc hdl hfind2 hhash (Or.inr hpend2)

/-- C1 witness fixture: an unseen general document whose probe scores
0.9 against the admitted document 1. -/
def c1wOracle : Oracles :=
  { download := fun p => if p == "kb/new.txt" then some [6] else none
    extract := fun _ _ => List.replicate 60 'z'
    extract_ppt := fun _ => []
    parse_ppt := fun _ => []
    embed := fun xs => xs.map (fun _ => [mkRat 1 1])
    search := fun _ _ => [⟨some 1, mkRat 9 10⟩] }

/-- Claim C1 — witness for the amended theorem. -/
theorem collision_blocks_admission_witness :
    ∃ p, (processSingleDocument c1wOracle c5State stats0 ⟨"kb/new.txt", "new.txt"⟩).st.pendings
      = c5State.pendings ++ [p] ∧ p.new_document_id = c5State.next_id ∧
      p.status = "pending" :=
  (collision_blocks_admission c1wOracle c5State stats0 ⟨"kb/new.txt", "new.txt"⟩ [6]
    { c5State with
        docs := c5State.docs ++ [freshDoc c5State ⟨"kb/new.txt", "new.txt"⟩ [6]]
        next_id := c5State.next_id + 1 }
    { stats0 with new := stats0.new + 1 }
    (freshDoc c5State ⟨"kb/new.txt", "new.txt"⟩ [6])
    (List.replicate 60 'z')
    rfl rfl
    (Or.inl ⟨by decide, rfl⟩)
    (by decide)
    ⟨⟨some 1, mkRat 9 10⟩, by decide, by decide, 1, kbDoc1, rfl, by decide, by decide⟩).1

/-- C6 witness fixture: an oracle whose embedding service answers every
batch. -/
def c6Oracle : Oracles :=
  { download := fun _ => none
    extract := fun _ _ => []
    extract_ppt := fun _ => []
    parse_ppt := fun _ => []
    embed := fun xs => xs.map (fun _ => [mkRat 1 1])
    search := fun _ _ => [] }

/-- Claim C6 — witness: re-vectorizing document 1 with the same text
leaves the index unchanged, and the successful run upserts exactly the
ids derived from the document id and chunk indices. -/
theorem vector_ids_deterministic_witness :
    (vectorizeAndStore c6Oracle (vectorizeAndStore c6Oracle st0 kbDoc1 "hello".data).st
        kbDoc1 "hello".data).st.qdrant
      = (vectorizeAndStore c6Oracle st0 kbDoc1 "hello".data).st.qdrant ∧
    ((vectorizeAndStore c6Oracle st0 kbDoc1 "hello".data).success = true →
      (vectorizeAndStore c6Oracle st0 kbDoc1 "hello".data).events
        = [.upsertPoints
            (if kbDoc1.document_type == "case_study" then CASE_STUDY_COLLECTION
             else QDRANT_COLLECTION)
            kbDoc1.id
            ((List.range (chunkText "hello".data).length).map (pointIdFor kbDoc1.id))]) :=
  vector_ids_deterministic c6Oracle st0 kbDoc1 kbDoc1 "hello".data rfl rfl

/-- A file is settled for the current scan: it downloads to bytes whose
fingerprint matches its stored row, and that row is already vectorized
or blocked on an open approval — exactly the situation of every file on
a second scan with no underlying object changes. -/
def settledFile (O : Oracles) (st : EtlState) (f : FileInfo) : Prop :=
  ∃ bytes d, O.download f.path = some bytes ∧
    st.docs.find? (fun x => x.blob_path == f.path) = some d ∧
    d.file_hash = sha256 bytes ∧
    (d.is_vectorized = true ∨ hasOpenPending st d.id = true)

theorem scan_fold_settled (O : Oracles) (st : EtlState) (files : List FileInfo) :
    (∀ f ∈ files, isPendingPath f.path = true ∨ settledFile O st f) →
    ∀ stats evs,
      (files.foldl (scanStep O) (st, stats, evs)).1 = st ∧
      (files.foldl (scanStep O) (st, stats, evs)).2.1.scanned = stats.scanned ∧
      (files.foldl (scanStep O) (st, stats, evs)).2.1.new = stats.new ∧
      (files.foldl (scanStep O) (st, stats, evs)).2.1.updated = stats.updated ∧
      (files.foldl (scanStep O) (st, stats, evs)).2.1.failed = stats.failed ∧
      (files.foldl (scanStep O) (st, stats, evs)).2.2 = evs := by
  induction files with
  | nil =>
    intro _ stats evs
    simp
  | cons f fs ih =>
    intro h stats evs
    have hf := h f (List.mem_cons_self f fs)
    have hfs := fun g hg => h g (List.mem_cons_of_mem f hg)
    simp only [List.foldl_cons]
    by_cases hp : isPendingPath f.path = true
    · have hstep : scanStep O (st, stats, evs) f
          = (st, { stats with pending_approval := stats.pending_approval + 1 }, evs) := by
        simp only [scanStep, hp, if_true]
      rw [hstep]
      exact ih hfs _ evs
    · rcases hf with hf | ⟨bytes, d, hdl, hfind, hhash, hsettled⟩
      · exact absurd hf hp
      · have hskip := processSingle_skip_settled O st stats f bytes d hdl hfind hhash hsettled
        have hstep : scanStep O (st, stats, evs) f = (st, stats, evs) := by
          simp only [scanStep, hp, Bool.false_eq_true, if_false, hskip, List.append_nil]
        rw [hstep]
        exact ih hfs stats evs

/-- Claim C2.  A scan over files that are all either under the reserved
`pending/` folder or settled (bytes unchanged since the previous run,
row vectorized or blocked on an open approval — the state after a first
run with no underlying object changes) is a pure no-op: the store and
index are returned unchanged (in particular zero new ProcessingJob
records are created), no events are emitted (every settled document is
skipped), and the resulting statistics report `new = 0`, `updated = 0`,
`failed = 0` with `scanned` equal to the number of listed files. -/
theorem second_scan_idempotent (O : Oracles) (st : EtlState) (files : List FileInfo)
    (h : ∀ f ∈ files, isPendingPath f.path = true ∨ settledFile O st f) :
    (scanAndProcess O st files).1 = st ∧
    (scanAndProcess O st files).1.jobs = st.jobs ∧
    (scanAndProcess O st files).2.1.scanned = files.length ∧
    (scanAndProcess O st files).2.1.new = 0 ∧
    (scanAndProcess O st files).2.1.updated = 0 ∧
    (scanAndProcess O st files).2.1.failed = 0 ∧
    (scanAndProcess O st files).2.2 = [] := by
  have hh := scan_fold_settled O st files h
    ⟨files.length, 0, 0, 0, 0⟩ []
  unfold scanAndProcess
  exact ⟨hh.1, by rw [hh.1], hh.2.1, hh.2.2.1, hh.2.2.2.1, hh.2.2.2.2.1, hh.2.2.2.2.2⟩

/-- Claim C2 — witness: a pending-folder file plus the settled document
of the C3 witness fixture make the scan a verified no-op. -/
theorem second_scan_idempotent_witness :
    (scanAndProcess c3wOracle c3wState
      [⟨"pending/x.pdf", "x.pdf"⟩, ⟨"kb/p.txt", "p.txt"⟩]).1 = c3wState ∧
    (scanAndProcess c3wOracle c3wState
      [⟨"pending/x.pdf", "x.pdf"⟩, ⟨"kb/p.txt", "p.txt"⟩]).1.jobs = c3wState.jobs ∧
    (scanAndProcess c3wOracle c3wState
      [⟨"pending/x.pdf", "x.pdf"⟩, ⟨"kb/p.txt", "p.txt"⟩]).2.1.scanned = 2 ∧
    (scanAndProcess c3wOracle c3wState
      [⟨"pending/x.pdf", "x.pdf"⟩, ⟨"kb/p.txt", "p.txt"⟩]).2.1.new = 0 ∧
    (scanAndProcess c3wOracle c3wState
      [⟨"pending/x.pdf", "x.pdf"⟩, ⟨"kb/p.txt", "p.txt"⟩]).2.1.updated = 0 ∧
    (scanAndProcess c3wOracle c3wState
      [⟨"pending/x.pdf", "x.pdf"⟩, ⟨"kb/p.txt", "p.txt"⟩]).2.1.failed = 0 ∧
    (scanAndProcess c3wOracle c3wState
      [⟨"pending/x.pdf", "x.pdf"⟩, ⟨"kb/p.txt", "p.txt"⟩]).2.2 = [] :=
  second_scan_idempotent c3wOracle c3wState
    [⟨"pending/x.pdf", "x.pdf"⟩, ⟨"kb/p.txt", "p.txt"⟩]
    (by
      intro f hf
      simp only [List.mem_cons, List.not_mem_nil, or_false] at hf
      rcases hf with rfl | rfl
      · exact Or.inl (by decide)
      · exact Or.inr ⟨[1, 2, 3], pendingBlockedDoc, rfl, by decide, rfl,
          Or.inr (by decide)⟩)

/-! ## Orphan reconciliation (claim C7)

The canonical prior state of a multi-record source: the `k`-th record
(1-based) lives at the base blob path for `k = 1` and at the synthetic
path `…#case_study_k` for `k ≥ 2`, with row id `k`. -/

/-- The blob path of the `k`-th record row of a source file. -/
def csDocPath (basePath : String) (k : Nat) : String :=
  if k == 1 then basePath else caseStudyPath basePath k

/-- The stored row of the `k`-th record of a previously processed
multi-record source. -/
def csDoc (basePath name : String) (oldHash : List Nat) (k : Nat) : KnowledgeBaseDocument :=
  { id := k, file_name := name, blob_path := csDocPath basePath k, file_hash := oldHash,
    file_size := 0, document_type := "case_study", case_study_metadata := none,
    is_vectorized := true, vector_count := 1, qdrant_point_ids := [] }

/-- The rows of a source previously split into `N` records. -/
def csDocs (basePath name : String) (oldHash : List Nat) (N : Nat) :
    List KnowledgeBaseDocument :=
  (List.range N).map (fun i => csDoc basePath name oldHash (i + 1))

/-- The prior session state for the reconciliation scenario (the vector
index contents `q` are arbitrary). -/
def csState (basePath name : String) (oldHash : List Nat) (N : Nat) (q : QdrantState) :
    EtlState :=
  { docs := csDocs basePath name oldHash N, pendings := [], jobs := [], qdrant := q,
    next_id := N + 1 }

/-- The id/path signature of a document list — the abstraction preserved
by the record-processing loop and consumed by the orphan loop. -/
def docsSig (docs : List KnowledgeBaseDocument) : List (Nat × String) :=
  docs.map (fun d => (d.id, d.blob_path))

/-- The signature determined by a list of record indices. -/
def sigOf (basePath : String) (is : List Nat) : List (Nat × String) :=
  is.map (fun k => (k, csDocPath basePath k))

theorem setColl_cs (q : QdrantState) (pts : List VPoint) :
    setColl q CASE_STUDY_COLLECTION pts = { q with case_studies := pts } := by
  simp [setColl]

theorem getColl_cs (q : QdrantState) : getColl q CASE_STUDY_COLLECTION = q.case_studies := by
  simp [getColl]

/-- Membership view of a signature equation: every stored row's path is
the canonical path of its id, and its id occurs in the index list. -/
theorem sig_mem_path (basePath : String) (is : List Nat)
    (docs : List KnowledgeBaseDocument) (hsig : docsSig docs = sigOf basePath is) :
    ∀ x ∈ docs, x.blob_path = csDocPath basePath x.id ∧ x.id ∈ is := by
  intro x hx
  have hmem : (x.id, x.blob_path) ∈ sigOf basePath is := by
    rw [← hsig]
    exact List.mem_map.mpr ⟨x, hx, rfl⟩
  obtain ⟨k, hk, heq⟩ := List.mem_map.mp hmem
  obtain ⟨h1, h2⟩ := Prod.mk.injEq .. ▸ heq
  constructor
  · rw [← h2, ← h1]
  · rw [← h1]; exact hk

/-- `updateDocs` with a row whose id determines its path (relative to
the current list) preserves the signature. -/
theorem updateDocs_sig (docs : List KnowledgeBaseDocument) (d : KnowledgeBaseDocument)
    (h : ∀ x ∈ docs, x.id = d.id → x.blob_path = d.blob_path) :
    docsSig (updateDocs docs d) = docsSig docs := by
  unfold docsSig updateDocs
  rw [List.map_map]
  apply List.map_congr_left
  intro x hx
  by_cases hid : (x.id == d.id) = true
  · have hid' : x.id = d.id := by simpa using hid
    simp [hid, hid', h x hx hid']
  · have hid' : ¬ x.id = d.id := by simpa using hid
    simp [hid']

/-- Looking up a synthetic path in a list with signature `is` finds a
row with exactly that index, provided the index is present. -/
theorem sig_find_some (basePath : String) (N : Nat) (is : List Nat)
    (docs : List KnowledgeBaseDocument) (hsig : docsSig docs = sigOf basePath is)
    (hisN : ∀ j ∈ is, 1 ≤ j ∧ j ≤ N)
    (hinj : ∀ j k, j ≤ N + 1 → k ≤ N + 1 →
      caseStudyPath basePath j = caseStudyPath basePath k → j = k)
    (hbase : ∀ k, 2 ≤ k → k ≤ N + 1 → caseStudyPath basePath k ≠ basePath)
    (k : Nat) (hk2 : 2 ≤ k) (hkN : k ≤ N + 1) (hkin : k ∈ is) :
    ∃ ex, docs.find? (fun d => d.blob_path == caseStudyPath basePath k) = some ex ∧
      ex.id = k ∧ ex.blob_path = caseStudyPath basePath k := by
  have hk1 : (k == 1) = false := by
    simp only [beq_eq_false_iff_ne, ne_eq]
    omega
  have hcs : csDocPath basePath k = caseStudyPath basePath k := by
    simp [csDocPath, hk1]
  have hx0 : ∃ x ∈ docs, (fun d => d.blob_path == caseStudyPath basePath k) x = true := by
    have : (k, csDocPath basePath k) ∈ sigOf basePath is :=
      List.mem_map.mpr ⟨k, hkin, rfl⟩
    rw [← hsig] at this
    obtain ⟨x, hx, hxe⟩ := List.mem_map.mp this
    refine ⟨x, hx, ?_⟩
    have : x.blob_path = caseStudyPath basePath k := by
      have := (Prod.mk.injEq .. ▸ hxe).2
      rw [← hcs, this]
    simp [this]
  have hsome : (docs.find? (fun d => d.blob_path == caseStudyPath basePath k)).isSome := by
    rw [List.find?_isSome]
    exact hx0
  obtain ⟨ex, hex⟩ := Option.isSome_iff_exists.mp hsome
  have hmem := List.mem_of_find?_eq_some hex
  have hpred := List.find?_some hex
  have hexpath : ex.blob_path = caseStudyPath basePath k := by simpa using hpred
  obtain ⟨hcanon, hidin⟩ := sig_mem_path basePath is docs hsig ex hmem
  obtain ⟨hid1, hidN⟩ := hisN ex.id hidin
  have hidk : ex.id = k := by
    by_cases h1 : ex.id = 1
    · exfalso
      rw [h1] at hcanon
      simp only [csDocPath] at hcanon
      rw [show ((1 : Nat) == 1) = true from rfl] at hcanon
      simp only [if_true] at hcanon
      exact hbase k hk2 hkN (by rw [← hexpath, hcanon])
    · have h2 : (ex.id == 1) = false := by
        simp only [beq_eq_false_iff_ne, ne_eq]
        exact h1
      rw [csDocPath, h2] at hcanon
      simp only [Bool.false_eq_true, if_false] at hcanon
      exact hinj ex.id k (by omega) hkN (by rw [← hcanon, hexpath])
  exact ⟨ex, hex, hidk, hexpath⟩

/-- Looking up a synthetic path whose index is absent from the
signature finds nothing. -/
theorem sig_find_none (basePath : String) (N : Nat) (is : List Nat)
    (docs : List KnowledgeBaseDocument) (hsig : docsSig docs = sigOf basePath is)
    (hisN : ∀ j ∈ is, 1 ≤ j ∧ j ≤ N)
    (hinj : ∀ j k, j ≤ N + 1 → k ≤ N + 1 →
      caseStudyPath basePath j = caseStudyPath basePath k → j = k)
    (hbase : ∀ k, 2 ≤ k → k ≤ N + 1 → caseStudyPath basePath k ≠ basePath)
    (k : Nat) (hk2 : 2 ≤ k) (hkN : k ≤ N + 1) (hkout : k ∉ is) :
    docs.find? (fun d => d.blob_path == caseStudyPath basePath k) = none := by
  rw [List.find?_eq_none]
  intro x hx
  obtain ⟨hcanon, hidin⟩ := sig_mem_path basePath is docs hsig x hx
  obtain ⟨hid1, hidN⟩ := hisN x.id hidin
  simp only [Bool.not_eq_true, beq_eq_false_iff_ne, ne_eq]
  intro hpath
  by_cases h1 : x.id = 1
  · rw [h1] at hcanon
    simp only [csDocPath] at hcanon
    rw [show ((1 : Nat) == 1) = true from rfl] at hcanon
    simp only [if_true] at hcanon
    exact hbase k hk2 hkN (by rw [← hpath, hcanon])
  · have h2 : (x.id == 1) = false := by
      simp only [beq_eq_false_iff_ne, ne_eq]
      exact h1
    rw [csDocPath, h2] at hcanon
    simp only [Bool.false_eq_true, if_false] at hcanon
    have := hinj x.id k (by omega) hkN (by rw [← hcanon, hpath])
    exact hkout (this ▸ hidin)

/-- An event that is not a vector-index or row deletion. -/
def noDeleteEvent (e : EtlEvent) : Prop :=
  match e with
  | EtlEvent.deleteVectors _ _ => False
  | EtlEvent.deleteDocRow _ => False
  | _ => True

/-- `updateDocs` with a row at its canonical path preserves the
signature. -/
theorem sig_update_canonical (basePath : String) (is : List Nat)
    (docs : List KnowledgeBaseDocument) (hsig : docsSig docs = sigOf basePath is)
    (d : KnowledgeBaseDocument) (hd : d.blob_path = csDocPath basePath d.id) :
    docsSig (updateDocs docs d) = sigOf basePath is := by
  rw [updateDocs_sig docs d, hsig]
  intro x hx hxid
  rw [(sig_mem_path basePath is docs hsig x hx).1, hxid, hd]

/-- The row-lookup step of the record loop: with a full signature and an
index inside the record range, the row is found (or, at index 0, the
classified base row is reused); the state keeps its signature and its
other fields, and the chosen row sits at its canonical path. -/
theorem prepareCaseDoc_ok (basePath name : String) (N : Nat) (fhash : List Nat)
    (fsize : Nat) (doc0 : KnowledgeBaseDocument)
    (hinj : ∀ j k, j ≤ N + 1 → k ≤ N + 1 →
      caseStudyPath basePath j = caseStudyPath basePath k → j = k)
    (hbase : ∀ k, 2 ≤ k → k ≤ N + 1 → caseStudyPath basePath k ≠ basePath)
    (hdoc0 : doc0.blob_path = csDocPath basePath doc0.id)
    (st : EtlState) (r : CaseStudyRecord) (idx : Nat)
    (hsig : docsSig st.docs = sigOf basePath ((List.range N).map (· + 1)))
    (hidx : idx = 0 ∨ idx + 1 ≤ N) :
    docsSig (prepareCaseDoc st ⟨basePath, name⟩ fhash fsize doc0 r idx).1.docs
        = sigOf basePath ((List.range N).map (· + 1)) ∧
    (prepareCaseDoc st ⟨basePath, name⟩ fhash fsize doc0 r idx).2.blob_path
        = csDocPath basePath
            (prepareCaseDoc st ⟨basePath, name⟩ fhash fsize doc0 r idx).2.id ∧
    (prepareCaseDoc st ⟨basePath, name⟩ fhash fsize doc0 r idx).1.pendings = st.pendings ∧
    (prepareCaseDoc st ⟨basePath, name⟩ fhash fsize doc0 r idx).1.jobs = st.jobs ∧
    (prepareCaseDoc st ⟨basePath, name⟩ fhash fsize doc0 r idx).1.qdrant = st.qdrant := by
  by_cases h0 : idx = 0
  · subst h0
    simp only [prepareCaseDoc]
    rw [show ((0 : Nat) == 0) = true from rfl]
    simp only [if_true]
    exact ⟨hsig, hdoc0, by trivial, by trivial, by trivial⟩
  · have hb : (idx == 0) = false := by
      simp only [beq_eq_false_iff_ne, ne_eq]
      exact h0
    have hidxN : idx + 1 ≤ N := by
      rcases hidx with h | h
      · exact absurd h h0
      · exact h
    have hkin : idx + 1 ∈ (List.range N).map (· + 1) := by
      apply List.mem_map.mpr
      exact ⟨idx, List.mem_range.mpr (by omega), rfl⟩
    obtain ⟨ex, hex, hexid, hexpath⟩ := sig_find_some basePath N _ st.docs hsig
      (by
        intro j hj
        obtain ⟨i, hi, rfl⟩ := List.mem_map.mp hj
        have := List.mem_range.mp hi
        omega)
      hinj hbase (idx + 1) (by omega) (by omega) hkin
    simp only [prepareCaseDoc, hb, Bool.false_eq_true, if_false, hex]
    have hk1 : ((idx + 1) == 1) = false := by
      simp only [beq_eq_false_iff_ne, ne_eq]
      omega
    refine ⟨?_, ?_, by trivial, by trivial, by trivial⟩
    · apply sig_update_canonical basePath _ st.docs hsig
      simp only [hexid, csDocPath, hk1, Bool.false_eq_true, if_false]
      exact hexpath
    · simp only [hexid, csDocPath, hk1, Bool.false_eq_true, if_false]
      exact hexpath

/-- Vectorization of a row at its canonical path, with a well-behaved
embedding oracle and a non-empty chunk list: it succeeds, keeps the
signature, and emits only an upsert event. -/
theorem vectorize_ok (O : Oracles) (basePath : String) (is : List Nat) (st : EtlState)
    (doc : KnowledgeBaseDocument) (text : List Char)
    (hembed : ∀ xs, (O.embed xs).length = xs.length ∧
      ((O.embed xs).isEmpty = true → xs = []))
    (hchunks : chunkText text ≠ [])
    (hsig : docsSig st.docs = sigOf basePath is)
    (hd : doc.blob_path = csDocPath basePath doc.id) :
    (vectorizeAndStore O st doc text).success = true ∧
    docsSig (vectorizeAndStore O st doc text).st.docs = sigOf basePath is ∧
    ∀ e ∈ (vectorizeAndStore O st doc text).events, noDeleteEvent e := by
  have hemp : (O.embed (chunkText text)).isEmpty = false := by
    cases h : (O.embed (chunkText text)).isEmpty
    · rfl
    · exact absurd ((hembed (chunkText text)).2 h) hchunks
  have hlen : ((O.embed (chunkText text)).length != (chunkText text).length) = false := by
    rw [(hembed (chunkText text)).1]
    simp
  have hcond : ((O.embed (chunkText text)).isEmpty
      || (O.embed (chunkText text)).length != (chunkText text).length) = false := by
    rw [hemp, hlen]
    rfl
  refine ⟨?_, ?_, ?_⟩
  · simp only [vectorizeAndStore, hcond, Bool.false_eq_true, if_false]
  · simp only [vectorizeAndStore, hcond, Bool.false_eq_true, if_false]
    exact sig_update_canonical basePath is st.docs hsig _ hd
  · simp only [vectorizeAndStore, hcond, Bool.false_eq_true, if_false]
    intro e he
    simp only [List.mem_singleton] at he
    subst he
    trivial

/-- The record loop keeps the full signature, never raises, and emits
no deletion events, provided every index it touches has a stored row
and vectorization always succeeds. -/
theorem caseStudyList_ok (O : Oracles) (basePath name : String) (N : Nat)
    (fhash : List Nat) (fsize : Nat) (doc0 : KnowledgeBaseDocument)
    (hinj : ∀ j k, j ≤ N + 1 → k ≤ N + 1 →
      caseStudyPath basePath j = caseStudyPath basePath k → j = k)
    (hbase : ∀ k, 2 ≤ k → k ≤ N + 1 → caseStudyPath basePath k ≠ basePath)
    (hembed : ∀ xs, (O.embed xs).length = xs.length ∧
      ((O.embed xs).isEmpty = true → xs = []))
    (hdoc0 : doc0.blob_path = csDocPath basePath doc0.id) :
    ∀ rs st idx,
      docsSig st.docs = sigOf basePath ((List.range N).map (· + 1)) →
      idx + rs.length ≤ N →
      (∀ r ∈ rs, 50 ≤ (pyStrip r.full_text).length → chunkText r.full_text ≠ []) →
      docsSig (processCaseStudyList O ⟨basePath, name⟩ fhash fsize doc0 st rs idx).1.docs
          = sigOf basePath ((List.range N).map (· + 1)) ∧
      (processCaseStudyList O ⟨basePath, name⟩ fhash fsize doc0 st rs idx).2.2 = false ∧
      ∀ e ∈ (processCaseStudyList O ⟨basePath, name⟩ fhash fsize doc0 st rs idx).2.1,
        noDeleteEvent e := by
  intro rs
  induction rs with
  | nil =>
    intro st idx hsig _ _
    exact ⟨hsig, rfl, by simp [processCaseStudyList]⟩
  | cons r rs' ih =>
    intro st idx hsig hlen hrec
    obtain ⟨hPsig, hPpath, _, _, _⟩ := prepareCaseDoc_ok basePath name N fhash fsize doc0
      hinj hbase hdoc0 st r idx hsig
      (by
        by_cases h0 : idx = 0
        · exact Or.inl h0
        · right
          simp only [List.length_cons] at hlen
          omega)
    set P := prepareCaseDoc st ⟨basePath, name⟩ fhash fsize doc0 r idx with hPdef
    set d : KnowledgeBaseDocument := { P.2 with case_study_metadata := some r } with hddef
    set st1 : EtlState := { P.1 with docs := updateDocs P.1.docs d } with hst1def
    have hdpath : d.blob_path = csDocPath basePath d.id := hPpath
    have hsig1 : docsSig st1.docs = sigOf basePath ((List.range N).map (· + 1)) := by
      rw [hst1def]
      exact sig_update_canonical basePath _ P.1.docs hPsig d hdpath
    have hunfold : processCaseStudyList O ⟨basePath, name⟩ fhash fsize doc0 st (r :: rs') idx
        = if 50 ≤ (pyStrip r.full_text).length then
            let v := vectorizeAndStore O st1 d r.full_text
            if v.success then
              let rest := processCaseStudyList O ⟨basePath, name⟩ fhash fsize doc0 v.st rs' (idx + 1)
              (rest.1, v.events ++ rest.2.1, rest.2.2)
            else (v.st, v.events, true)
          else
            let rest := processCaseStudyList O ⟨basePath, name⟩ fhash fsize doc0 st1 rs' (idx + 1)
            (rest.1, rest.2.1, rest.2.2) := rfl
    rw [hunfold]
    by_cases h50 : 50 ≤ (pyStrip r.full_text).length
    · obtain ⟨hvs, hvsig, hvev⟩ := vectorize_ok O basePath _ st1 d r.full_text hembed
        (hrec r (List.mem_cons_self r rs') h50) hsig1 hdpath
      obtain ⟨hrsig, hrraise, hrev⟩ := ih (vectorizeAndStore O st1 d r.full_text).st (idx + 1)
        hvsig
        (by simp only [List.length_cons] at hlen; omega)
        (fun g hg => hrec g (List.mem_cons_of_mem r hg))
      simp only [if_pos h50, hvs, if_true]
      refine ⟨hrsig, hrraise, ?_⟩
      intro e he
      rcases List.mem_append.mp he with h | h
      · exact hvev e h
      · exact hrev e h
    · obtain ⟨hrsig, hrraise, hrev⟩ := ih st1 (idx + 1)
        hsig1
        (by simp only [List.length_cons] at hlen; omega)
        (fun g hg => hrec g (List.mem_cons_of_mem r hg))
      simp only [if_neg h50]
      exact ⟨hrsig, hrraise, hrev⟩

/-- The record indices still stored when the orphan loop has deleted all
synthetic rows below `k` (records `1..M` plus not-yet-visited
`k..N`). -/
def orphanIds (M N k : Nat) : List Nat :=
  ((List.range N).map (· + 1)).filter (fun j => decide (j ≤ M) || decide (k ≤ j))

theorem orphanIds_bounds (M N k : Nat) : ∀ j ∈ orphanIds M N k, 1 ≤ j ∧ j ≤ N := by
  intro j hj
  obtain ⟨hj', _⟩ := List.mem_filter.mp hj
  obtain ⟨i, hi, rfl⟩ := List.mem_map.mp hj'
  have := List.mem_range.mp hi
  omega

theorem orphanIds_entry (M N : Nat) :
    orphanIds M N (M + 1) = (List.range N).map (· + 1) := by
  unfold orphanIds
  apply List.filter_eq_self.mpr
  intro j _
  by_cases h : j ≤ M <;> simp [h]
  omega

theorem orphanIds_step (M N k : Nat) (hk : M + 1 ≤ k) :
    (orphanIds M N k).filter (fun j => j != k) = orphanIds M N (k + 1) := by
  unfold orphanIds
  rw [List.filter_filter]
  apply List.filter_congr
  intro j _
  rw [Bool.eq_iff_iff]
  simp only [Bool.and_eq_true, Bool.or_eq_true, bne_iff_ne, ne_eq, decide_eq_true_eq]
  omega

theorem orphanIds_mem_self (M N k : Nat) (h1 : M + 1 ≤ k) (h2 : k ≤ N) :
    k ∈ orphanIds M N k := by
  unfold orphanIds
  rw [List.mem_filter]
  constructor
  · exact List.mem_map.mpr ⟨k - 1, List.mem_range.mpr (by omega), by omega⟩
  · simp

theorem orphanIds_not_mem (M N k : Nat) (_hM : M + 1 ≤ k) (hk : N < k) :
    k ∉ orphanIds M N k := by
  intro h
  have := orphanIds_bounds M N k k h
  omega

theorem range_filter_lt (M : Nat) : ∀ N, M ≤ N →
    (List.range N).filter (fun i => decide (i < M)) = List.range M := by
  intro N
  induction N with
  | zero =>
    intro h
    have : M = 0 := by omega
    subst this
    rfl
  | succ n ih =>
    intro h
    by_cases hM : M = n + 1
    · subst hM
      apply List.filter_eq_self.mpr
      intro j hj
      simpa using List.mem_range.mp hj
    · have hMn : M ≤ n := by omega
      rw [List.range_succ, List.filter_append, ih hMn]
      have : ¬ n < M := by omega
      simp [this]

theorem orphanIds_exit (M N : Nat) (hMN : M ≤ N) :
    orphanIds M N (N + 1) = (List.range M).map (· + 1) := by
  unfold orphanIds
  rw [List.filter_map]
  congr 1
  have hcongr : (List.range N).filter ((fun j => decide (j ≤ M) || decide (N + 1 ≤ j)) ∘ (· + 1))
      = (List.range N).filter (fun i => decide (i < M)) := by
    apply List.filter_congr
    intro i hi
    have := List.mem_range.mp hi
    by_cases h1 : i + 1 ≤ M <;> simp [Function.comp, h1] <;> omega
  rw [hcongr, range_filter_lt M N hMN]

theorem docsSig_filter_id (docs : List KnowledgeBaseDocument) (k : Nat) :
    docsSig (docs.filter (fun d => d.id != k)) = (docsSig docs).filter (fun e => e.1 != k) := by
  unfold docsSig
  rw [List.filter_map]
  rfl

theorem sigOf_filter_id (basePath : String) (is : List Nat) (k : Nat) :
    (sigOf basePath is).filter (fun e => e.1 != k)
      = sigOf basePath (is.filter (fun j => j != k)) := by
  unfold sigOf
  rw [List.filter_map]
  rfl

/-- The orphan loop deletes exactly the rows `k..N` (vectors first, row
second, in ascending index order), leaves the rows `1..M`, and never
re-adds a deleted vector. -/
theorem orphanLoop_ok (basePath : String) (N M : Nat)
    (hinj : ∀ j k, j ≤ N + 1 → k ≤ N + 1 →
      caseStudyPath basePath j = caseStudyPath basePath k → j = k)
    (hbase : ∀ k, 2 ≤ k → k ≤ N + 1 → caseStudyPath basePath k ≠ basePath) :
    ∀ fuel k st,
      M + 1 ≤ k → k ≤ N + 1 → 1 ≤ M →
      docsSig st.docs = sigOf basePath (orphanIds M N k) →
      st.docs.length + 1 ≤ fuel →
      (orphanLoop basePath fuel st k).2
        = (List.range' k (N + 1 - k)).flatMap (fun j =>
            [EtlEvent.deleteVectors CASE_STUDY_COLLECTION j, EtlEvent.deleteDocRow j]) ∧
      docsSig (orphanLoop basePath fuel st k).1.docs
        = sigOf basePath (orphanIds M N (N + 1)) ∧
      ∀ p ∈ (orphanLoop basePath fuel st k).1.qdrant.case_studies,
        p ∈ st.qdrant.case_studies ∧ ∀ j, k ≤ j → j ≤ N → p.document_id ≠ j := by
  intro fuel
  induction fuel with
  | zero =>
    intro k st _ _ _ _ hfuel
    omega
  | succ n ih =>
    intro k st hkM hkN1 hM1 hsig hfuel
    by_cases hkN : k ≤ N
    · obtain ⟨ex, hex, hexid, _⟩ := sig_find_some basePath N _ st.docs hsig
        (orphanIds_bounds M N k) hinj hbase k (by omega) (by omega)
        (orphanIds_mem_self M N k hkM hkN)
      have hexmem := List.mem_of_find?_eq_some hex
      simp only [orphanLoop, hex]
      have hsig' : docsSig (st.docs.filter (fun d => d.id != ex.id))
          = sigOf basePath (orphanIds M N (k + 1)) := by
        rw [docsSig_filter_id, hsig, hexid, sigOf_filter_id, orphanIds_step M N k hkM]
      have hlen' : (st.docs.filter (fun d => d.id != ex.id)).length < st.docs.length :=
        List.length_filter_lt_length_iff_exists.mpr ⟨ex, hexmem, by simp⟩
      obtain ⟨htr, hfsig, hpts⟩ := ih (k + 1)
        { st with
          qdrant := setColl st.qdrant CASE_STUDY_COLLECTION
            ((getColl st.qdrant CASE_STUDY_COLLECTION).filter
              (fun p => p.document_id != ex.id)),
          docs := st.docs.filter (fun d => d.id != ex.id),
          jobs := st.jobs.filter (fun j => j.document_id != ex.id),
          pendings := st.pendings.filter (fun p => p.new_document_id != ex.id) }
        (by omega) (by omega) hM1 hsig' (by simp only; omega)
      refine ⟨?_, hfsig, ?_⟩
      · rw [htr, hexid]
        have hsplit : N + 1 - k = (N - k) + 1 := by omega
        rw [hsplit, List.range'_succ]
        simp only [List.flatMap_cons]
        have : N - k = N + 1 - (k + 1) := by omega
        rw [this]
        rfl
      · intro p hp
        obtain ⟨hp', hpj⟩ := hpts p hp
        simp only [setColl_cs, getColl_cs] at hp'
        obtain ⟨hpmem, hpneq⟩ := List.mem_filter.mp hp'
        refine ⟨hpmem, ?_⟩
        intro j hj1 hj2
        by_cases hjk : j = k
        · subst hjk
          rw [hexid] at hpneq
          simpa using hpneq
        · exact hpj j (by omega) hj2
    · have hkeq : k = N + 1 := by omega
      have hnone := sig_find_none basePath N _ st.docs hsig (orphanIds_bounds M N k)
        hinj hbase k (by omega) (by omega)
        (by rw [hkeq]; exact orphanIds_not_mem M N (N + 1) (by omega) (by omega))
      simp only [orphanLoop, hnone]
      refine ⟨?_, ?_, ?_⟩
      · rw [hkeq]
        simp
      · rw [hsig, hkeq]
      · intro p hp
        exact ⟨hp, fun j hj1 hj2 => by omega⟩

/-- Claim C7 — amended theorem.  Re-scanning a changed source file that
previously yielded `N` structured records, when the parse now yields
`M` records with `1 ≤ M < N`: the scan does not raise; exactly the `M`
record rows remain for the source (ids `1..M` at their canonical
paths — the base path and `#case_study_2..#case_study_M`); every vector
of every orphaned record (`M+1..N`) is gone from the case-study
collection; and the event trace ends with, for each orphan in
ascending order, its vector deletion immediately followed by its row
deletion — vector index first, then metadata — with no deletion
happening anywhere else.  (For `M = 0` the code falls back to
whole-file processing and performs no reconciliation; see the
counterexample.) -/
theorem orphan_reconciliation (O : Oracles) (basePath name : String) (oldHash : List Nat)
    (N : Nat) (q : QdrantState) (stats : Stats) (bytes : List Nat)
    (records : List CaseStudyRecord)
    (hdl : O.download basePath = some bytes)
    (hppt : isPptName name = true)
    (hchanged : oldHash ≠ sha256 bytes)
    (hparse : O.parse_ppt bytes = records)
    (hM1 : 1 ≤ records.length) (hMN : records.length < N)
    (hinj : ∀ j k, j ≤ N + 1 → k ≤ N + 1 →
      caseStudyPath basePath j = caseStudyPath basePath k → j = k)
    (hbase2 : ∀ k, 2 ≤ k → k ≤ N + 1 → caseStudyPath basePath k ≠ basePath)
    (hembed : ∀ xs, (O.embed xs).length = xs.length ∧
      ((O.embed xs).isEmpty = true → xs = []))
    (hrec : ∀ r ∈ records, 50 ≤ (pyStrip r.full_text).length →
      chunkText r.full_text ≠ []) :
    (processSingleDocument O (csState basePath name oldHash N q) stats
        ⟨basePath, name⟩).raised = false ∧
    docsSig (processSingleDocument O (csState basePath name oldHash N q) stats
        ⟨basePath, name⟩).st.docs
      = sigOf basePath ((List.range records.length).map (· + 1)) ∧
    (processSingleDocument O (csState basePath name oldHash N q) stats
        ⟨basePath, name⟩).st.docs.length = records.length ∧
    (∀ p ∈ (processSingleDocument O (csState basePath name oldHash N q) stats
        ⟨basePath, name⟩).st.qdrant.case_studies,
      ∀ j, records.length + 1 ≤ j → j ≤ N → p.document_id ≠ j) ∧
    ∃ evs, (processSingleDocument O (csState basePath name oldHash N q) stats
        ⟨basePath, name⟩).events
        = evs ++ (List.range' (records.length + 1) (N - records.length)).flatMap
            (fun j => [EtlEvent.deleteVectors CASE_STUDY_COLLECTION j,
                       EtlEvent.deleteDocRow j]) ∧
      ∀ e ∈ evs, noDeleteEvent e := by
  have hfind : (csState basePath name oldHash N q).docs.find?
      (fun d => d.blob_path == basePath) = some (csDoc basePath name oldHash 1) := by
    obtain ⟨N', rfl⟩ : ∃ N', N = N' + 1 := ⟨N - 1, by omega⟩
    simp only [csState, csDocs, List.range_succ_eq_map, List.map_cons]
    rw [List.find?_cons_of_pos]
    simp [csDoc, csDocPath]
  have hhash : ((csDoc basePath name oldHash 1).file_hash == sha256 bytes) = false := by
    simp only [csDoc]
    exact beq_eq_false_iff_ne.mpr hchanged
  set doc1 : KnowledgeBaseDocument := { csDoc basePath name oldHash 1 with
    file_hash := sha256 bytes, file_size := bytes.length, is_vectorized := false }
    with hdoc1def
  set st1 : EtlState := { csState basePath name oldHash N q with
    docs := updateDocs (csState basePath name oldHash N q).docs doc1 } with hst1def
  set stats1 : Stats := { stats with updated := stats.updated + 1 } with hstats1def
  have hsig0 : docsSig (csState basePath name oldHash N q).docs
      = sigOf basePath ((List.range N).map (· + 1)) := by
    simp only [csState, csDocs, docsSig, sigOf, List.map_map]
    rfl
  have hdoc1path : doc1.blob_path = csDocPath basePath doc1.id := by
    simp [hdoc1def, csDoc]
  have hsig1 : docsSig st1.docs = sigOf basePath ((List.range N).map (· + 1)) := by
    rw [hst1def]
    exact sig_update_canonical basePath _ _ hsig0 doc1 hdoc1path
  have hclass : classifyDocument (csState basePath name oldHash N q) stats basePath name
      (sha256 bytes) bytes.length = Classify.proceed st1 stats1 doc1 := by
    simp only [classifyDocument, hfind, hhash, Bool.false_eq_true, if_false]
  have hbranch : (doc1.document_type == "case_study" && isPptName name) = true := by
    simp [hdoc1def, csDoc, hppt]
  have hrecne : records.isEmpty = false := by
    cases records with
    | nil => simp at hM1
    | cons a l => rfl
  have hrun : processSingleDocument O (csState basePath name oldHash N q) stats
      ⟨basePath, name⟩
      = caseStudyBranch O ⟨basePath, name⟩ (sha256 bytes) bytes.length st1 stats1 doc1
          records := by
    simp only [processSingleDocument, hdl, hclass, hbranch, if_true, hparse, hrecne,
      Bool.false_eq_true, if_false]
  obtain ⟨hLsig, hLraise, hLev⟩ := caseStudyList_ok O basePath name N (sha256 bytes)
    bytes.length doc1 hinj hbase2 hembed hdoc1path records st1 0 hsig1 (by omega) hrec
  have hlenN : (processCaseStudyList O ⟨basePath, name⟩ (sha256 bytes) bytes.length doc1
      st1 records 0).1.docs.length = N := by
    have := congrArg List.length hLsig
    simpa [docsSig, sigOf] using this
  have hbr : caseStudyBranch O ⟨basePath, name⟩ (sha256 bytes) bytes.length st1 stats1 doc1
      records
      = ⟨(orphanLoop basePath
            ((processCaseStudyList O ⟨basePath, name⟩ (sha256 bytes) bytes.length doc1
              st1 records 0).1.docs.length + 1)
            (processCaseStudyList O ⟨basePath, name⟩ (sha256 bytes) bytes.length doc1
              st1 records 0).1 (records.length + 1)).1,
         stats1,
         (processCaseStudyList O ⟨basePath, name⟩ (sha256 bytes) bytes.length doc1
           st1 records 0).2.1
           ++ (orphanLoop basePath
                ((processCaseStudyList O ⟨basePath, name⟩ (sha256 bytes) bytes.length doc1
                  st1 records 0).1.docs.length + 1)
                (processCaseStudyList O ⟨basePath, name⟩ (sha256 bytes) bytes.length doc1
                  st1 records 0).1 (records.length + 1)).2,
         false⟩ := by
    simp only [caseStudyBranch, hLraise, Bool.false_eq_true, if_false]
  obtain ⟨htr, hfsig, hpts⟩ := orphanLoop_ok basePath N records.length hinj hbase2
    ((processCaseStudyList O ⟨basePath, name⟩ (sha256 bytes) bytes.length doc1
      st1 records 0).1.docs.length + 1)
    (records.length + 1)
    (processCaseStudyList O ⟨basePath, name⟩ (sha256 bytes) bytes.length doc1 st1 records 0).1
    (by omega) (by omega) hM1
    (by rw [orphanIds_entry]; exact hLsig)
    (by omega)
  rw [hrun, hbr]
  refine ⟨rfl, ?_, ?_, ?_, ?_⟩
  · rw [hfsig, orphanIds_exit records.length N (by omega)]
  · have := congrArg List.length hfsig
    simpa [docsSig, sigOf, orphanIds_exit records.length N (by omega : records.length ≤ N)]
      using this
  · intro p hp j hj1 hj2
    exact ((hpts p hp).2) j hj1 hj2
  · refine ⟨(processCaseStudyList O ⟨basePath, name⟩ (sha256 bytes) bytes.length doc1
      st1 records 0).2.1, ?_, hLev⟩
    rw [htr]
    have : N + 1 - (records.length + 1) = N - records.length := by omega
    rw [this]

/-- C7 witness fixture: a source previously split into three records,
re-scanned when the parse yields one record. -/
def c7wOracle : Oracles :=
  { download := fun p => if p == "kb/cs_deck.pptx" then some [9] else none
    extract := fun _ _ => []
    extract_ppt := fun _ => []
    parse_ppt := fun _ => [c1Record]
    embed := fun xs => xs.map (fun _ => [mkRat 1 1])
    search := fun _ _ => [] }

def c7wState : EtlState :=
  csState "kb/cs_deck.pptx" "cs_deck.pptx" [0] 3 ⟨[], [⟨11, 1, 0⟩, ⟨12, 2, 0⟩, ⟨13, 3, 0⟩]⟩

/-- Claim C7 — witness for the amended theorem at `N = 3`, `M = 1`:
the re-scan does not raise, exactly one Document row remains for the
source, and no vector of the orphaned records 2 and 3 survives in the
case-study collection. -/
theorem orphan_reconciliation_witness :
    (processSingleDocument c7wOracle c7wState stats0
        ⟨"kb/cs_deck.pptx", "cs_deck.pptx"⟩).raised = false ∧
    (processSingleDocument c7wOracle c7wState stats0
        ⟨"kb/cs_deck.pptx", "cs_deck.pptx"⟩).st.docs.length = 1 ∧
    ∀ p ∈ (processSingleDocument c7wOracle c7wState stats0
        ⟨"kb/cs_deck.pptx", "cs_deck.pptx"⟩).st.qdrant.case_studies,
      ∀ j, 2 ≤ j → j ≤ 3 → p.document_id ≠ j := by
  have h := orphan_reconciliation c7wOracle "kb/cs_deck.pptx" "cs_deck.pptx" [0] 3
    ⟨[], [⟨11, 1, 0⟩, ⟨12, 2, 0⟩, ⟨13, 3, 0⟩]⟩ stats0 [9] [c1Record]
    rfl (by decide) (by decide) rfl (by decide) (by decide)
    (by
      intro j k hj hk heq
      interval_cases j <;> interval_cases k <;>
        first
          | rfl
          | exact absurd heq (by decide))
    (by
      intro k hk2 hk4
      interval_cases k <;> decide)
    (fun xs => ⟨by simp [c7wOracle], by intro h; simpa [c7wOracle] using h⟩)
    (by
      intro r hr _
      simp only [List.mem_singleton] at hr
      subst hr
      decide)
  exact ⟨h.1, h.2.2.1, h.2.2.2.1⟩

end Etl
